import Mathlib

/-!
Verification of the recipe-app backend core: the recipe aggregate model, the
nested tag/ingredient get-or-create synchronization (`app/recipe/serializers.py`),
and the ownership-scoped filtered queries (`app/recipe/views.py`).

The relational rows are embedded as Lean structures, querysets as lists, and
each API operation as a pure function from a database state to an
`Except ApiError` result.  Django ORM primitives used by the source
(`get_or_create`, `filter`, `distinct`, `order_by`, m2m `add`/`clear`) are
embedded with their documented relational semantics.
-/

deriving instance DecidableEq for Except

namespace RecipeApp

/-- Error outcomes an operation can surface (HTTP 404, 403, 400, a Python
`ValueError`, Django `MultipleObjectsReturned`, Python `AttributeError`). -/
inductive ApiError
  | notFound
  | forbidden
  | badRequest
  | valueError
  | multipleObjects
  | attributeError
deriving DecidableEq

/-- Modelled from the spec: `core/models.py` is not among the sources; per spec
§3, Tag = `{id, name, owner_user_id}` and Ingredient has the identical shape.
One structure embeds both kinds; the database keeps two separate registries. -/
structure Attr where
  id : Nat
  user : Nat
  name : String
deriving DecidableEq

/-- Modelled from the spec: `core/models.py` is not among the sources; per spec
§3, Recipe = `{id, owner_user_id, title, time_minutes, price, description,
link, image, tags, ingredients}` with many-to-many tag/ingredient relations
(embedded as the lists of associated attribute ids). -/
structure Recipe where
  id : Nat
  user : Nat
  title : String
  timeMinutes : Nat
  price : Int
  description : String
  link : String
  image : Option String
  tags : List Nat
  ingredients : List Nat
deriving DecidableEq

/-- The relational store: the three tables plus the id sequences. -/
structure Db where
  tags : List Attr
  ingredients : List Attr
  recipes : List Recipe
  nextTagId : Nat
  nextIngredientId : Nat
  nextRecipeId : Nat
deriving DecidableEq

/-- A recipe-create request body after DRF field validation: `user` and `id`
are not in `RecipeSerializer.Meta.fields`, so a `user` key in the raw payload
is carried here only to show it is never read. `tags`/`ingredients` are the
optional nested name lists. -/
structure CreatePayload where
  title : String
  timeMinutes : Nat
  price : Int
  description : Option String
  link : Option String
  user : Option Nat
  tags : Option (List String)
  ingredients : Option (List String)
deriving DecidableEq

/-- A recipe-update request body (PATCH: any subset; PUT: all scalar fields
present). As in `RecipeSerializer.Meta`, `user` is not a writable field. -/
structure UpdatePayload where
  title : Option String
  timeMinutes : Option Nat
  price : Option Int
  description : Option String
  link : Option String
  user : Option Nat
  tags : Option (List String)
  ingredients : Option (List String)
deriving DecidableEq

/-! ### Python `int()` parsing, `RecipeViewSet._params_to_int` and the
`assigned_only` parameter -/

/-- The whitespace characters Python's `int(str)` strips. -/
def isPySpace (c : Char) : Bool :=
  c == ' ' || c == '\t' || c == '\n' || c == '\r' || c == '\x0b' || c == '\x0c'

/-- Digit run of a Python integer literal after the first digit: single
underscores are allowed between digits only. Accumulates the base-10 value. -/
def digitsCore : List Char → Nat → Option Nat
  | [], acc => some acc
  | '_' :: c :: rest, acc =>
      if c.isDigit then digitsCore rest (acc * 10 + (c.toNat - 48)) else none
  | c :: rest, acc =>
      if c.isDigit then digitsCore rest (acc * 10 + (c.toNat - 48)) else none

/-- A non-empty digit run (underscores between digits), as accepted by
Python's `int(str)` after sign and whitespace handling. -/
def digitsVal : List Char → Option Nat
  | [] => none
  | c :: rest => if c.isDigit then digitsCore rest (c.toNat - 48) else none

/-- Python `int(s)` for base 10: strip whitespace, optional sign, digit run.
Returns `none` where Python raises `ValueError`. -/
def pyInt? (s : String) : Option Int :=
  let cs := ((s.toList.dropWhile isPySpace).reverse.dropWhile isPySpace).reverse
  match cs with
  | '+' :: rest => (digitsVal rest).map (fun n => (n : Int))
  | '-' :: rest => (digitsVal rest).map (fun n => -(n : Int))
  | rest => (digitsVal rest).map (fun n => (n : Int))

/-- `[int(str_id) for str_id in qs.split(',')]` evaluated left to right:
`none` as soon as one token is not a valid integer literal. -/
def intList? : List String → Option (List Int)
  | [] => some []
  | s :: rest =>
      match pyInt? s, intList? rest with
      | some v, some vs => some (v :: vs)
      | _, _ => none

/-- Python `qs.split(',')`: split at every comma, keeping empty tokens. -/
def splitCommasAux : List Char → List Char → List String
  | [], cur => [⟨cur.reverse⟩]
  | c :: rest, cur =>
      if c == ',' then ⟨cur.reverse⟩ :: splitCommasAux rest []
      else splitCommasAux rest (c :: cur)

/-- Python `qs.split(',')` on a string. -/
def splitCommas (s : String) : List String :=
  splitCommasAux s.toList []

/-- `RecipeViewSet._params_to_int` (views.py:54-56): split on commas and
convert each token with `int`, surfacing Python's `ValueError`. -/
def paramsToInt (qs : String) : Except ApiError (List Int) :=
  match intList? (splitCommas qs) with
  | some l => .ok l
  | none => .error .valueError

/-- `bool(int(request.query_params.get('assigned_only', 0)))`
(views.py:123-125): absent parameter defaults to the integer `0`; a present
parameter must parse as an integer, else `ValueError`. -/
def parseAssignedOnly (p : Option String) : Except ApiError Bool :=
  match p with
  | none => .ok false
  | some s =>
      match pyInt? s with
      | some n => .ok (decide (n ≠ 0))
      | none => .error .valueError

/-! ### The nested get-or-create synchronization (`serializers.py`) -/

/-- Django `model.objects.get_or_create(user=auth_user, name=n)` as invoked by
`RecipeSerializer._get_or_create_field` (serializers.py:40-48): return the
unique row matching the key, create it when absent (with the next id from the
sequence), raise `MultipleObjectsReturned` when several rows match.
Returns (registry, next id, row id). -/
def attrGetOrCreate (reg : List Attr) (next : Nat) (u : Nat) (n : String) :
    Except ApiError (List Attr × Nat × Nat) :=
  match reg.filter (fun t => t.user == u && t.name == n) with
  | [] => .ok (reg ++ [⟨next, u, n⟩], next + 1, next)
  | [t] => .ok (reg, next, t.id)
  | _ => .error .multipleObjects

/-- The loop of `RecipeSerializer._get_or_create_field` (serializers.py:43-48):
for each name get-or-create the attribute row and `obj.add` its id to the
recipe's association set (m2m `add` is a no-op on an existing association). -/
def getOrCreateLoop (u : Nat) :
    List String → List Attr → Nat → List Nat →
    Except ApiError (List Attr × Nat × List Nat)
  | [], reg, next, acc => .ok (reg, next, acc)
  | n :: rest, reg, next, acc =>
      match attrGetOrCreate reg next u n with
      | .error e => .error e
      | .ok (reg', next', tid) =>
          getOrCreateLoop u rest reg' next'
            (if tid ∈ acc then acc else acc ++ [tid])

/-- `RecipeSerializer.create` (serializers.py:50-59) under
`RecipeViewSet.perform_create` (views.py:84-86): pop the nested name lists
(default `[]`), create the Recipe row with `user=self.request.user`, then run
the get-or-create-and-associate loop for tags and for ingredients. -/
def createRecipe (db : Db) (authUser : Nat) (p : CreatePayload) :
    Except ApiError (Db × Nat) :=
  let rid := db.nextRecipeId
  let r0 : Recipe :=
    { id := rid, user := authUser, title := p.title,
      timeMinutes := p.timeMinutes, price := p.price,
      description := p.description.getD "", link := p.link.getD "",
      image := none, tags := [], ingredients := [] }
  match getOrCreateLoop authUser (p.tags.getD []) db.tags db.nextTagId [] with
  | .error e => .error e
  | .ok (tags', nextT', tids) =>
      match getOrCreateLoop authUser (p.ingredients.getD [])
          db.ingredients db.nextIngredientId [] with
      | .error e => .error e
      | .ok (ings', nextI', iids) =>
          .ok ({ db with
                  tags := tags', nextTagId := nextT',
                  ingredients := ings', nextIngredientId := nextI',
                  recipes := db.recipes ++
                    [{ r0 with tags := tids, ingredients := iids }],
                  nextRecipeId := rid + 1 }, rid)

/-! ### Ownership-scoped querysets (`views.py`) -/

/-- Descending-id order used by `order_by('-id')` (views.py:72). -/
def recipeGE (a b : Recipe) : Prop := b.id ≤ a.id

instance : DecidableRel recipeGE := fun _ _ => Nat.decLe _ _

instance : IsTotal Recipe recipeGE := ⟨fun a b => Nat.le_total b.id a.id⟩

instance : IsTrans Recipe recipeGE := ⟨fun _ _ _ h1 h2 => le_trans h2 h1⟩

/-- Descending-name order used by `order_by('-name')` (views.py:131). -/
def attrGE (a b : Attr) : Prop := b.name ≤ a.name

instance : DecidableRel attrGE := fun a b => String.decidableLE b.name a.name

instance : IsTotal Attr attrGE := ⟨fun a b => le_total b.name a.name⟩

instance : IsTrans Attr attrGE := ⟨fun _ _ _ h1 h2 => le_trans h2 h1⟩

/-- An SQL join that keeps one copy of the row `x` per matching related row
in `K x` (the shape shared by the three relation filters below). -/
def copyJoin {α β : Type} (K : α → List β) (l : List α) : List α :=
  l.flatMap (fun x => (K x).map (fun _ => x))

/-- `queryset.filter(tags__id__in=tag_ids)` (views.py:65): an SQL join against
the m2m table produces one output row per (recipe, matching tag) pair. -/
def tagJoin (recipes : List Recipe) (ids : List Int) : List Recipe :=
  copyJoin (fun r => r.tags.filter (fun tid : Nat => (tid : Int) ∈ ids)) recipes

/-- `queryset.filter(ingredients__id__in=ingredient_ids)` (views.py:68). -/
def ingJoin (recipes : List Recipe) (ids : List Int) : List Recipe :=
  copyJoin (fun r => r.ingredients.filter (fun iid : Nat => (iid : Int) ∈ ids)) recipes

/-- The `tags` query-parameter stage of `get_queryset` (views.py:60-65):
`if tags:` is false for an absent or empty parameter; otherwise parse and
apply the join filter. -/
def tagParamStage (recipes : List Recipe) (tp : Option String) :
    Except ApiError (List Recipe) :=
  match tp with
  | some s =>
      if s = "" then .ok recipes
      else (paramsToInt s).map (fun ids => tagJoin recipes ids)
  | none => .ok recipes

/-- The `ingredients` query-parameter stage of `get_queryset` (views.py:61-68). -/
def ingParamStage (recipes : List Recipe) (ip : Option String) :
    Except ApiError (List Recipe) :=
  match ip with
  | some s =>
      if s = "" then .ok recipes
      else (paramsToInt s).map (fun ids => ingJoin recipes ids)
  | none => .ok recipes

/-- `RecipeViewSet.get_queryset` (views.py:58-72): apply the two parameter
stages, then filter by the authenticated user, order by descending id, and
apply `distinct()`. -/
def recipeQueryset (db : Db) (u : Nat) (tagsP ingsP : Option String) :
    Except ApiError (List Recipe) :=
  match tagParamStage db.recipes tagsP with
  | .error e => .error e
  | .ok q1 =>
      match ingParamStage q1 ingsP with
      | .error e => .error e
      | .ok q2 =>
          .ok (((q2.filter (fun r => r.user == u)).insertionSort
                  recipeGE).dedup)

/-- `GET /recipes` list response contents. -/
def listRecipes (db : Db) (u : Nat) (tagsP ingsP : Option String) :
    Except ApiError (List Recipe) :=
  recipeQueryset db u tagsP ingsP

/-- DRF `get_object` for `RecipeViewSet` detail routes: look the pk up inside
the ownership-filtered queryset; a miss is `Http404`. -/
def getObjectRecipe (db : Db) (u : Nat) (rid : Nat) :
    Except ApiError Recipe :=
  match recipeQueryset db u none none with
  | .error e => .error e
  | .ok l =>
      match l.find? (fun r => r.id == rid) with
      | none => .error .notFound
      | some r => .ok r

/-- One nested-list half of `RecipeSerializer.update` (serializers.py:63-72):
`validated_data.pop(..., None)`; `None` leaves the registry and the instance
associations alone; a present list (`is not None`) clears the associations and
re-runs the get-or-create loop over the given names. -/
def assocStep (reg : List Attr) (next : Nat) (defIds : List Nat) (u : Nat)
    (pt : Option (List String)) :
    Except ApiError (List Attr × Nat × List Nat) :=
  match pt with
  | none => .ok (reg, next, defIds)
  | some names => getOrCreateLoop u names reg next []

/-- The `tags` half of `RecipeSerializer.update`. -/
def tagsStep (db : Db) (u : Nat) (r : Recipe) (pt : Option (List String)) :
    Except ApiError (List Attr × Nat × List Nat) :=
  assocStep db.tags db.nextTagId r.tags u pt

/-- The `ingredients` half of `RecipeSerializer.update`. -/
def ingsStep (db : Db) (u : Nat) (r : Recipe) (pn : Option (List String)) :
    Except ApiError (List Attr × Nat × List Nat) :=
  assocStep db.ingredients db.nextIngredientId r.ingredients u pn

/-- `RecipeSerializer.update` (serializers.py:61-78) on a detail route: fetch
the instance through the ownership-filtered queryset; pop `tags` and
`ingredients` (default `None`); when a list is present, `clear()` the existing
associations and re-run the get-or-create loop; then overwrite the provided
scalar fields and save. -/
def updateRecipe (db : Db) (authUser rid : Nat) (p : UpdatePayload) :
    Except ApiError Db :=
  match getObjectRecipe db authUser rid with
  | .error e => .error e
  | .ok r =>
      match tagsStep db authUser r p.tags with
      | .error e => .error e
      | .ok (tags', nextT', tids) =>
          match ingsStep db authUser r p.ingredients with
          | .error e => .error e
          | .ok (ings', nextI', iids) =>
              let r' : Recipe :=
                { r with
                  title := p.title.getD r.title,
                  timeMinutes := p.timeMinutes.getD r.timeMinutes,
                  price := p.price.getD r.price,
                  description := p.description.getD r.description,
                  link := p.link.getD r.link,
                  tags := tids, ingredients := iids }
              .ok { db with
                      tags := tags', nextTagId := nextT',
                      ingredients := ings', nextIngredientId := nextI',
                      recipes := db.recipes.map
                        (fun x => if x.id == rid then r' else x) }

/-- `DELETE /recipes/{id}`: `get_object` then delete the row (the m2m relation
rows die with the aggregate; the attribute rows survive). -/
def deleteRecipe (db : Db) (authUser rid : Nat) : Except ApiError Db :=
  match getObjectRecipe db authUser rid with
  | .error e => .error e
  | .ok _ => .ok { db with recipes := db.recipes.filter (fun x => !(x.id == rid)) }

/-- `queryset.filter(recipe__isnull=False)` (views.py:128): the reverse m2m
join keeps one output row per (attribute, associated recipe) pair. -/
def assignedJoin (reg : List Attr) (recipes : List Recipe)
    (assoc : Recipe → List Nat) : List Attr :=
  copyJoin (fun t => recipes.filter (fun r => t.id ∈ assoc r)) reg

/-- `BaseAttributeViewSet.get_queryset` (views.py:121-131), generic over the
attribute kind: parse `assigned_only`, optionally keep only attributes joined
to at least one recipe, filter by the authenticated user, order by descending
name, `distinct()`. -/
def attrQueryset (reg : List Attr) (recipes : List Recipe)
    (assoc : Recipe → List Nat) (u : Nat) (assignedP : Option String) :
    Except ApiError (List Attr) :=
  match parseAssignedOnly assignedP with
  | .error e => .error e
  | .ok assigned =>
      let q := if assigned then assignedJoin reg recipes assoc else reg
      .ok (((q.filter (fun t => t.user == u)).insertionSort attrGE).dedup)

/-- `GET /tags` list response contents (`TagViewSet`). -/
def listTags (db : Db) (u : Nat) (assignedP : Option String) :
    Except ApiError (List Attr) :=
  attrQueryset db.tags db.recipes Recipe.tags u assignedP

/-- `GET /ingredients` list response contents (`IngredientViewSet`). -/
def listIngredients (db : Db) (u : Nat) (assignedP : Option String) :
    Except ApiError (List Attr) :=
  attrQueryset db.ingredients db.recipes Recipe.ingredients u assignedP

/-- DRF `get_object` for the attribute viewsets' detail routes. -/
def getObjectAttr (reg : List Attr) (recipes : List Recipe)
    (assoc : Recipe → List Nat) (u : Nat) (aid : Nat) :
    Except ApiError Attr :=
  match attrQueryset reg recipes assoc u none with
  | .error e => .error e
  | .ok l =>
      match l.find? (fun t => t.id == aid) with
      | none => .error .notFound
      | some t => .ok t

/-- `PATCH /tags/{id}`: `TagSerializer` exposes only the writable `name`
field; the owner is untouched. -/
def updateTag (db : Db) (u : Nat) (tid : Nat) (n : String) :
    Except ApiError Db :=
  match getObjectAttr db.tags db.recipes Recipe.tags u tid with
  | .error e => .error e
  | .ok _ =>
      .ok { db with tags :=
              db.tags.map (fun t => if t.id == tid then { t with name := n } else t) }

/-- `DELETE /tags/{id}`: remove the row; the m2m through rows referencing it
are removed with it. -/
def deleteTag (db : Db) (u : Nat) (tid : Nat) : Except ApiError Db :=
  match getObjectAttr db.tags db.recipes Recipe.tags u tid with
  | .error e => .error e
  | .ok _ =>
      .ok { db with
              tags := db.tags.filter (fun t => !(t.id == tid)),
              recipes := db.recipes.map
                (fun r => { r with tags := r.tags.filter (fun x => !(x == tid)) }) }

/-- `PATCH /ingredients/{id}`. -/
def updateIngredient (db : Db) (u : Nat) (iid : Nat) (n : String) :
    Except ApiError Db :=
  match getObjectAttr db.ingredients db.recipes Recipe.ingredients u iid with
  | .error e => .error e
  | .ok _ =>
      .ok { db with ingredients :=
              db.ingredients.map (fun t => if t.id == iid then { t with name := n } else t) }

/-- `DELETE /ingredients/{id}`. -/
def deleteIngredient (db : Db) (u : Nat) (iid : Nat) : Except ApiError Db :=
  match getObjectAttr db.ingredients db.recipes Recipe.ingredients u iid with
  | .error e => .error e
  | .ok _ =>
      .ok { db with
              ingredients := db.ingredients.filter (fun t => !(t.id == iid)),
              recipes := db.recipes.map
                (fun r => { r with
                  ingredients := r.ingredients.filter (fun x => !(x == iid)) }) }

/-! ### The image-upload action (`views.py:76-98`) -/

/-- The classes the module `recipe/serializers.py` actually defines. -/
def recipeSerializersDefs : List String :=
  ["IngredientSerializer", "TagSerializer", "RecipeSerializer",
   "RecipeDetailSerializer"]

/-- Python attribute access `serializers.<name>`: `AttributeError` when the
module does not define the name. -/
def serializersAttr (n : String) : Except ApiError String :=
  if n ∈ recipeSerializersDefs then .ok n else .error .attributeError

/-- `RecipeViewSet.get_serializer_class` (views.py:76-82). -/
def getSerializerClass (action : String) : Except ApiError String :=
  if action == "list" then serializersAttr "RecipeSerializer"
  else if action == "upload_image" then serializersAttr "RecipeImageSerializer"
  else serializersAttr "RecipeDetailSerializer"

/-- `RecipeViewSet.upload_image` (views.py:88-98): `get_object` (404 on
ownership miss), then `get_serializer` resolves the serializer class, then
validate and either save the image (200) or report errors (400). The final
branch after the class lookup is modelled from the spec: `RecipeImageSerializer`
is missing from `serializers.py`, so the source has no validation/save code
for it; spec §6 says 200 with the image field on a valid image, 400 otherwise.
Returns the state and the HTTP status. -/
def uploadImage (db : Db) (authUser rid : Nat) (validImage : Bool) :
    Except ApiError (Db × Nat) :=
  match getObjectRecipe db authUser rid with
  | .error e => .error e
  | .ok _ =>
      match getSerializerClass "upload_image" with
      | .error e => .error e
      | .ok _ =>
          if validImage then
            .ok ({ db with recipes :=
                    db.recipes.map (fun x =>
                      if x.id == rid then { x with image := some "img" } else x) },
                 200)
          else .ok (db, 400)

/-! ### State predicates -/

/-- Spec §3: at most one attribute row per (owner, name) key. -/
def keyUniq (reg : List Attr) : Prop :=
  reg.Pairwise (fun a b => a.user ≠ b.user ∨ a.name ≠ b.name)

instance : DecidablePred keyUniq := fun reg =>
  List.instDecidablePairwise reg

/-- Every row id is below the table's id sequence. -/
def idsFresh (reg : List Attr) (next : Nat) : Prop :=
  ∀ t ∈ reg, t.id < next

/-- Spec §3 invariant: every tag/ingredient attached to a recipe has the same
owner as the recipe. -/
def Inv (db : Db) : Prop :=
  (∀ r ∈ db.recipes, ∀ t ∈ db.tags, t.id ∈ r.tags → t.user = r.user) ∧
  (∀ r ∈ db.recipes, ∀ t ∈ db.ingredients, t.id ∈ r.ingredients → t.user = r.user)

/-- Structural well-formedness of the store: id sequences dominate the stored
ids, ids are table-unique, and recipes reference only already-issued
attribute ids. -/
def Wf (db : Db) : Prop :=
  idsFresh db.tags db.nextTagId ∧
  idsFresh db.ingredients db.nextIngredientId ∧
  (db.tags.map Attr.id).Nodup ∧
  (db.ingredients.map Attr.id).Nodup ∧
  (∀ r ∈ db.recipes,
    (∀ tid ∈ r.tags, tid < db.nextTagId) ∧
    (∀ iid ∈ r.ingredients, iid < db.nextIngredientId))

instance (db : Db) : Decidable (Inv db) := by
  unfold Inv
  infer_instance

instance (db : Db) : Decidable (Wf db) := by
  unfold Wf idsFresh
  infer_instance

/-- Remove every row owned by `u` (used to state noninterference). -/
def scrubUser (db : Db) (u : Nat) : Db :=
  { db with
      recipes := db.recipes.filter (fun r => !(r.user == u)),
      tags := db.tags.filter (fun t => !(t.user == u)),
      ingredients := db.ingredients.filter (fun t => !(t.user == u)) }

/-! ### Helper lemmas -/

lemma pairwise_imp_mem {α : Type} {l : List α} {r s : α → α → Prop}
    (h : ∀ a ∈ l, ∀ b ∈ l, r a b → s a b) : l.Pairwise r → l.Pairwise s := by
  induction l with
  | nil => intro _; exact List.Pairwise.nil
  | cons x xs ih =>
      intro hp
      rcases List.pairwise_cons.mp hp with ⟨hx, hxs⟩
      refine List.pairwise_cons.mpr ⟨fun b hb =>
        h x (by simp) b (by simp [hb]) (hx b hb), ?_⟩
      exact ih (fun a ha b hb hr => h a (by simp [ha]) b (by simp [hb]) hr) hxs

lemma keyUniq_unique {reg : List Attr} (h : keyUniq reg) {t1 t2 : Attr}
    (h1 : t1 ∈ reg) (h2 : t2 ∈ reg) (hu : t1.user = t2.user)
    (hn : t1.name = t2.name) : t1 = t2 := by
  induction reg with
  | nil => cases h1
  | cons x xs ih =>
      rcases List.pairwise_cons.mp h with ⟨hx, hxs⟩
      rcases List.mem_cons.mp h1 with rfl | h1' <;>
        rcases List.mem_cons.mp h2 with rfl | h2'
      · rfl
      · rcases hx t2 h2' with hne | hne
        · exact absurd hu hne
        · exact absurd hn hne
      · rcases hx t1 h1' with hne | hne
        · exact absurd hu.symm hne
        · exact absurd hn.symm hne
      · exact ih hxs h1' h2'

lemma attrGetOrCreate_spec (reg : List Attr) (next u : Nat) (n : String)
    (hU : keyUniq reg) :
    (∃ t ∈ reg, t.user = u ∧ t.name = n ∧
       attrGetOrCreate reg next u n = .ok (reg, next, t.id)) ∨
    ((∀ t ∈ reg, ¬(t.user = u ∧ t.name = n)) ∧
       attrGetOrCreate reg next u n = .ok (reg ++ [⟨next, u, n⟩], next + 1, next)) := by
  cases hf : reg.filter (fun t => t.user == u && t.name == n) with
  | nil =>
      refine Or.inr ⟨?_, by simp [attrGetOrCreate, hf]⟩
      rintro t ht ⟨h1, h2⟩
      have := List.filter_eq_nil_iff.mp hf t ht
      simp [h1, h2] at this
  | cons t rest =>
      cases rest with
      | nil =>
          have htm : t ∈ reg.filter (fun t => t.user == u && t.name == n) := by
            rw [hf]; exact List.mem_cons_self t []
          have ht := List.mem_filter.mp htm
          have hkey : t.user = u ∧ t.name = n := by
            have := ht.2; simp at this; exact this
          exact Or.inl ⟨t, ht.1, hkey.1, hkey.2, by simp [attrGetOrCreate, hf]⟩
      | cons t2 rest2 =>
          exfalso
          have hp : List.Pairwise (fun a b => a.user ≠ b.user ∨ a.name ≠ b.name)
              (reg.filter (fun t => t.user == u && t.name == n)) :=
            List.Pairwise.sublist (List.filter_sublist reg) hU
          rw [hf] at hp
          rcases List.pairwise_cons.mp hp with ⟨hx, _⟩
          have httm : t ∈ reg.filter (fun t => t.user == u && t.name == n) := by
            rw [hf]; exact List.mem_cons_self _ _
          have ht2m : t2 ∈ reg.filter (fun t => t.user == u && t.name == n) := by
            rw [hf]; simp
          have hk1 : t.user = u ∧ t.name = n := by
            have := (List.mem_filter.mp httm).2; simpa using this
          have hk2 : t2.user = u ∧ t2.name = n := by
            have := (List.mem_filter.mp ht2m).2; simpa using this
          rcases hx t2 (List.mem_cons_self _ _) with hne | hne
          · exact hne (hk1.1.trans hk2.1.symm)
          · exact hne (hk1.2.trans hk2.2.symm)

/-- Full characterization of the `_get_or_create_field` loop: success under
key uniqueness, the registry only grows by rows keyed to the caller's user and
one of the requested names, key uniqueness and id freshness are preserved, and
the produced association set is exactly the ids of registry rows keyed
(user, one of the names) together with the associations already present. -/
lemma getOrCreateLoop_spec (u : Nat) (names : List String) :
    ∀ (reg : List Attr) (next : Nat) (acc : List Nat), keyUniq reg →
    ∃ reg' next' out new,
      getOrCreateLoop u names reg next acc = .ok (reg', next', out) ∧
      reg' = reg ++ new ∧
      (∀ t ∈ new, t.user = u ∧ t.name ∈ names ∧ next ≤ t.id ∧ t.id < next') ∧
      next ≤ next' ∧
      keyUniq reg' ∧
      (∀ tid, tid ∈ out ↔ tid ∈ acc ∨
          ∃ t ∈ reg', t.id = tid ∧ t.user = u ∧ t.name ∈ names) ∧
      (∀ n ∈ names, ∃ t ∈ reg', t.user = u ∧ t.name = n ∧ t.id ∈ out) ∧
      (idsFresh reg next → idsFresh reg' next') ∧
      (idsFresh reg next → (reg.map Attr.id).Nodup → (reg'.map Attr.id).Nodup) := by
  induction names with
  | nil =>
      intro reg next acc hU
      exact ⟨reg, next, acc, [], rfl, by simp, by simp, le_refl _, hU,
        by simp, by simp, fun h => h, fun _ h => h⟩
  | cons n rest ih =>
      intro reg next acc hU
      rcases attrGetOrCreate_spec reg next u n hU with
        ⟨t0, ht0, ht0u, ht0n, hstep⟩ | ⟨habs, hstep⟩
      · -- reuse: the unique (u, n) row t0 already exists; state unchanged
        obtain ⟨reg2, next2, out, new2, hloop, hreg2, hnew2, hle2, hU2,
          hiff, hex, hfresh2, hnod2⟩ :=
          ih reg next (if t0.id ∈ acc then acc else acc ++ [t0.id]) hU
        have hsub1 : ∀ tid, tid ∈ acc →
            tid ∈ (if t0.id ∈ acc then acc else acc ++ [t0.id]) := by
          intro tid htid
          by_cases hm : t0.id ∈ acc <;> simp [hm, htid]
        have htid1 : t0.id ∈ (if t0.id ∈ acc then acc else acc ++ [t0.id]) := by
          by_cases hm : t0.id ∈ acc <;> simp [hm]
        have hacc1 : ∀ tid, tid ∈ (if t0.id ∈ acc then acc else acc ++ [t0.id]) →
            tid ∈ acc ∨ tid = t0.id := by
          intro tid htid
          by_cases hm : t0.id ∈ acc <;> simp [hm] at htid
          · exact Or.inl htid
          · exact htid
        refine ⟨reg2, next2, out, new2, ?_, hreg2, ?_, hle2, hU2, ?_, ?_,
          hfresh2, hnod2⟩
        · simpa only [getOrCreateLoop, hstep] using hloop
        · intro t ht
          obtain ⟨h1, h2, h3, h4⟩ := hnew2 t ht
          exact ⟨h1, List.mem_cons_of_mem _ h2, h3, h4⟩
        · intro tid
          constructor
          · intro hout
            rcases (hiff tid).mp hout with hacc | ⟨t, htm, hid, huu, hnm⟩
            · rcases hacc1 tid hacc with h | rfl
              · exact Or.inl h
              · exact Or.inr ⟨t0, hreg2 ▸ List.mem_append_left _ ht0,
                  rfl, ht0u, by simp [ht0n]⟩
            · exact Or.inr ⟨t, htm, hid, huu, List.mem_cons_of_mem _ hnm⟩
          · intro hin
            rcases hin with hacc | ⟨t, htm, hid, huu, hnm⟩
            · exact (hiff tid).mpr (Or.inl (hsub1 tid hacc))
            · rcases List.mem_cons.mp hnm with heq | hnm'
              · rcases List.mem_append.mp (hreg2 ▸ htm) with htold | htnew
                · have hteq : t = t0 := keyUniq_unique hU htold ht0
                    (huu.trans ht0u.symm) (by rw [heq, ht0n])
                  subst hteq
                  exact (hiff tid).mpr (Or.inl (hid ▸ htid1))
                · obtain ⟨h1, h2, _, _⟩ := hnew2 t htnew
                  exact (hiff tid).mpr (Or.inr ⟨t, htm, hid, h1, h2⟩)
              · exact (hiff tid).mpr (Or.inr ⟨t, htm, hid, huu, hnm'⟩)
        · intro m hm
          rcases List.mem_cons.mp hm with rfl | hm'
          · exact ⟨t0, hreg2 ▸ List.mem_append_left _ ht0, ht0u, ht0n,
              (hiff _).mpr (Or.inl htid1)⟩
          · exact hex m hm'
      · -- create: the (u, n) row is absent; append ⟨next, u, n⟩
        have hU1 : keyUniq (reg ++ [⟨next, u, n⟩]) := by
          refine List.pairwise_append.mpr ⟨hU, by simp, ?_⟩
          intro a ha b hb
          simp only [List.mem_singleton] at hb
          subst hb
          have := habs a ha
          by_cases h1 : a.user = u
          · exact Or.inr (fun hn' => this ⟨h1, hn'⟩)
          · exact Or.inl h1
        obtain ⟨reg2, next2, out, new2, hloop, hreg2, hnew2, hle2, hU2,
          hiff, hex, hfresh2, hnod2⟩ :=
          ih (reg ++ [⟨next, u, n⟩]) (next + 1)
            (if next ∈ acc then acc else acc ++ [next]) hU1
        have hsub1 : ∀ tid, tid ∈ acc →
            tid ∈ (if next ∈ acc then acc else acc ++ [next]) := by
          intro tid htid
          by_cases hm : next ∈ acc <;> simp [hm, htid]
        have htid1 : next ∈ (if next ∈ acc then acc else acc ++ [next]) := by
          by_cases hm : next ∈ acc <;> simp [hm]
        have hacc1 : ∀ tid, tid ∈ (if next ∈ acc then acc else acc ++ [next]) →
            tid ∈ acc ∨ tid = next := by
          intro tid htid
          by_cases hm : next ∈ acc <;> simp [hm] at htid
          · exact Or.inl htid
          · exact htid
        have hw : (⟨next, u, n⟩ : Attr) ∈ reg2 :=
          hreg2 ▸ List.mem_append_left _ (List.mem_append_right _ (by simp))
        refine ⟨reg2, next2, out, ⟨next, u, n⟩ :: new2, ?_, ?_, ?_, ?_, hU2,
          ?_, ?_, ?_, ?_⟩
        · simpa only [getOrCreateLoop, hstep] using hloop
        · rw [hreg2, List.append_assoc]; rfl
        · intro t ht
          rcases List.mem_cons.mp ht with rfl | ht'
          · exact ⟨rfl, by simp, le_refl _,
              lt_of_lt_of_le (Nat.lt_succ_self _) hle2⟩
          · obtain ⟨h1, h2, h3, h4⟩ := hnew2 t ht'
            exact ⟨h1, List.mem_cons_of_mem _ h2,
              le_trans (Nat.le_succ _) h3, h4⟩
        · exact le_trans (Nat.le_succ _) hle2
        · intro tid
          constructor
          · intro hout
            rcases (hiff tid).mp hout with hacc | ⟨t, htm, hid, huu, hnm⟩
            · rcases hacc1 tid hacc with h | heq
              · exact Or.inl h
              · exact Or.inr ⟨⟨next, u, n⟩, hw, heq.symm, rfl, by simp⟩
            · exact Or.inr ⟨t, htm, hid, huu, List.mem_cons_of_mem _ hnm⟩
          · intro hin
            rcases hin with hacc | ⟨t, htm, hid, huu, hnm⟩
            · exact (hiff tid).mpr (Or.inl (hsub1 tid hacc))
            · rcases List.mem_cons.mp hnm with heq | hnm'
              · rcases List.mem_append.mp (hreg2 ▸ htm) with htold | htnew
                · rcases List.mem_append.mp htold with hto | htw
                  · exact absurd ⟨huu, heq⟩ (habs t hto)
                  · simp only [List.mem_singleton] at htw
                    subst htw
                    exact (hiff tid).mpr (Or.inl (hid ▸ htid1))
                · obtain ⟨h1, h2, _, _⟩ := hnew2 t htnew
                  exact (hiff tid).mpr (Or.inr ⟨t, htm, hid, h1, h2⟩)
              · exact (hiff tid).mpr (Or.inr ⟨t, htm, hid, huu, hnm'⟩)
        · intro m hm
          rcases List.mem_cons.mp hm with heq | hm'
          · exact ⟨⟨next, u, n⟩, hw, rfl, heq.symm, (hiff _).mpr (Or.inl htid1)⟩
          · exact hex m hm'
        · intro hfr
          refine hfresh2 ?_
          intro t ht
          rcases List.mem_append.mp ht with h | h
          · exact lt_trans (hfr t h) (Nat.lt_succ_self _)
          · simp only [List.mem_singleton] at h
            subst h
            exact Nat.lt_succ_self _
        · intro hfr hnd
          refine hnod2 ?_ ?_
          · intro t ht
            rcases List.mem_append.mp ht with h | h
            · exact lt_trans (hfr t h) (Nat.lt_succ_self _)
            · simp only [List.mem_singleton] at h
              subst h
              exact Nat.lt_succ_self _
          · rw [List.map_append]
            refine List.Nodup.append hnd (by simp) ?_
            intro a ha hb
            simp only [List.map_cons, List.map_nil, List.mem_singleton] at hb
            subst hb
            simp only [List.mem_map] at ha
            obtain ⟨t, ht, hteq⟩ := ha
            exact absurd hteq (Nat.ne_of_lt (hfr t ht))

/-! ### Query pipeline lemmas -/

lemma copyJoin_mem {α β : Type} (K : α → List β) (l : List α) (x : α) :
    x ∈ copyJoin K l ↔ x ∈ l ∧ K x ≠ [] := by
  unfold copyJoin
  rw [List.mem_flatMap]
  constructor
  · rintro ⟨r, hr, hx⟩
    rcases List.mem_map.mp hx with ⟨a, ha, rfl⟩
    exact ⟨hr, List.ne_nil_of_mem ha⟩
  · rintro ⟨hx, hne⟩
    rcases List.exists_mem_of_ne_nil _ hne with ⟨a, ha⟩
    exact ⟨x, hx, List.mem_map.mpr ⟨a, ha, rfl⟩⟩

lemma copyJoin_subset {α β : Type} (K : α → List β) (l : List α) :
    ∀ x ∈ copyJoin K l, x ∈ l :=
  fun x hx => ((copyJoin_mem K l x).mp hx).1

lemma filter_constMap {α β : Type} (p : β → Bool) (k : List α) (r : β) :
    ((k.map (fun _ => r)).filter p) =
      if p r then k.map (fun _ => r) else [] := by
  induction k with
  | nil => simp
  | cons a k ih =>
      by_cases hp : p r <;> simp [List.filter_cons, hp, ih]

lemma filter_copyJoin {α β : Type} (p : α → Bool) (K : α → List β)
    (l : List α) : (copyJoin K l).filter p = copyJoin K (l.filter p) := by
  induction l with
  | nil => rfl
  | cons r rest ih =>
      show ((K r).map (fun _ => r) ++ copyJoin K rest).filter p = _
      rw [List.filter_append, filter_constMap, ih]
      by_cases hp : p r <;> simp [List.filter_cons, hp, copyJoin]

lemma copyJoin_congr {α β : Type} (K1 K2 : α → List β) (l : List α)
    (h : ∀ x ∈ l, K1 x = K2 x) : copyJoin K1 l = copyJoin K2 l := by
  induction l with
  | nil => rfl
  | cons r rest ih =>
      show (K1 r).map (fun _ => r) ++ copyJoin K1 rest = _
      rw [h r (by simp), ih (fun x hx => h x (by simp [hx]))]
      rfl

lemma tagJoin_mem (l : List Recipe) (ids : List Int) (x : Recipe) :
    x ∈ tagJoin l ids ↔
      x ∈ l ∧ ∃ tid : Nat, tid ∈ x.tags ∧ (tid : Int) ∈ ids := by
  rw [tagJoin, copyJoin_mem]
  constructor
  · rintro ⟨hx, hne⟩
    rcases List.exists_mem_of_ne_nil _ hne with ⟨a, ha⟩
    have := List.mem_filter.mp ha
    exact ⟨hx, a, this.1, by simpa using this.2⟩
  · rintro ⟨hx, tid, htid, hin⟩
    exact ⟨hx, List.ne_nil_of_mem
      (List.mem_filter.mpr ⟨htid, by simpa using hin⟩)⟩

lemma ingJoin_mem (l : List Recipe) (ids : List Int) (x : Recipe) :
    x ∈ ingJoin l ids ↔
      x ∈ l ∧ ∃ iid : Nat, iid ∈ x.ingredients ∧ (iid : Int) ∈ ids := by
  rw [ingJoin, copyJoin_mem]
  constructor
  · rintro ⟨hx, hne⟩
    rcases List.exists_mem_of_ne_nil _ hne with ⟨a, ha⟩
    have := List.mem_filter.mp ha
    exact ⟨hx, a, this.1, by simpa using this.2⟩
  · rintro ⟨hx, iid, hiid, hin⟩
    exact ⟨hx, List.ne_nil_of_mem
      (List.mem_filter.mpr ⟨hiid, by simpa using hin⟩)⟩

lemma assignedJoin_mem (reg : List Attr) (recipes : List Recipe)
    (assoc : Recipe → List Nat) (x : Attr) :
    x ∈ assignedJoin reg recipes assoc ↔
      x ∈ reg ∧ ∃ r ∈ recipes, x.id ∈ assoc r := by
  rw [assignedJoin, copyJoin_mem]
  constructor
  · rintro ⟨hx, hne⟩
    rcases List.exists_mem_of_ne_nil _ hne with ⟨r, hr⟩
    have := List.mem_filter.mp hr
    exact ⟨hx, r, this.1, by simpa using this.2⟩
  · rintro ⟨hx, r, hr, hin⟩
    exact ⟨hx, List.ne_nil_of_mem
      (List.mem_filter.mpr ⟨hr, by simpa using hin⟩)⟩

lemma pipeline_mem {α : Type} [DecidableEq α] (r : α → α → Prop)
    [DecidableRel r] (p : α → Bool) (l : List α) (x : α) :
    x ∈ ((l.filter p).insertionSort r).dedup ↔ x ∈ l ∧ p x := by
  rw [List.mem_dedup, List.mem_insertionSort, List.mem_filter]

lemma pipeline_nodup {α : Type} [DecidableEq α] (r : α → α → Prop)
    [DecidableRel r] (p : α → Bool) (l : List α) :
    (((l.filter p).insertionSort r).dedup).Nodup := List.nodup_dedup _

lemma pipeline_sorted {α : Type} [DecidableEq α] (r : α → α → Prop)
    [DecidableRel r] [IsTotal α r] [IsTrans α r] (p : α → Bool) (l : List α) :
    (((l.filter p).insertionSort r).dedup).Pairwise r :=
  (List.sorted_insertionSort r _).sublist (List.dedup_sublist _)

lemma recipeQueryset_none (db : Db) (u : Nat) :
    recipeQueryset db u none none =
      .ok (((db.recipes.filter (fun r => r.user == u)).insertionSort
        recipeGE).dedup) := rfl

lemma attrQueryset_none (reg : List Attr) (recipes : List Recipe)
    (assoc : Recipe → List Nat) (u : Nat) :
    attrQueryset reg recipes assoc u none =
      .ok (((reg.filter (fun t => t.user == u)).insertionSort
        attrGE).dedup) := rfl

lemma getObjectRecipe_notFound (db : Db) (u rid : Nat)
    (h : ∀ r ∈ db.recipes, r.user = u → r.id ≠ rid) :
    getObjectRecipe db u rid = .error .notFound := by
  have hfind : (((db.recipes.filter (fun r => r.user == u)).insertionSort
      recipeGE).dedup).find? (fun r => r.id == rid) = none := by
    rw [List.find?_eq_none]
    intro x hx
    have hm := (pipeline_mem recipeGE (fun r => r.user == u)
      db.recipes x).mp hx
    have := h x hm.1 (by simpa using hm.2)
    simpa using this
  simp [getObjectRecipe, recipeQueryset_none, hfind]

lemma getObjectRecipe_found (db : Db) (u rid : Nat) (r : Recipe)
    (hnd : (db.recipes.map Recipe.id).Nodup) (hr : r ∈ db.recipes)
    (hu : r.user = u) (hid : r.id = rid) :
    getObjectRecipe db u rid = .ok r := by
  have hrl : r ∈ ((db.recipes.filter (fun x => x.user == u)).insertionSort
      recipeGE).dedup :=
    (pipeline_mem recipeGE _ db.recipes r).mpr ⟨hr, by simpa using hu⟩
  cases hf : (((db.recipes.filter (fun x => x.user == u)).insertionSort
      recipeGE).dedup).find? (fun x => x.id == rid) with
  | none =>
      exfalso
      have := List.find?_eq_none.mp hf r hrl
      simp [hid] at this
  | some x =>
      have hxl := List.mem_of_find?_eq_some hf
      have hxp := List.find?_some hf
      have hxm := (pipeline_mem recipeGE (fun x => x.user == u)
        db.recipes x).mp hxl
      have hxid : x.id = r.id := by
        have : x.id = rid := by simpa using hxp
        rw [this, hid]
      have hxr : x = r := List.inj_on_of_nodup_map hnd hxm.1 hr hxid
      subst hxr
      simp [getObjectRecipe, recipeQueryset_none, hf]

lemma getObjectAttr_notFound (reg : List Attr) (recipes : List Recipe)
    (assoc : Recipe → List Nat) (u aid : Nat)
    (h : ∀ t ∈ reg, t.user = u → t.id ≠ aid) :
    getObjectAttr reg recipes assoc u aid = .error .notFound := by
  have hfind : (((reg.filter (fun t => t.user == u)).insertionSort
      attrGE).dedup).find? (fun t => t.id == aid) = none := by
    rw [List.find?_eq_none]
    intro x hx
    have hm := (pipeline_mem attrGE (fun t => t.user == u) reg x).mp hx
    have := h x hm.1 (by simpa using hm.2)
    simpa using this
  simp [getObjectAttr, attrQueryset_none, hfind]

lemma getObjectAttr_found (reg : List Attr) (recipes : List Recipe)
    (assoc : Recipe → List Nat) (u aid : Nat) (t : Attr)
    (hnd : (reg.map Attr.id).Nodup) (ht : t ∈ reg)
    (hu : t.user = u) (hid : t.id = aid) :
    getObjectAttr reg recipes assoc u aid = .ok t := by
  have htl : t ∈ ((reg.filter (fun x => x.user == u)).insertionSort
      attrGE).dedup :=
    (pipeline_mem attrGE _ reg t).mpr ⟨ht, by simpa using hu⟩
  cases hf : (((reg.filter (fun x => x.user == u)).insertionSort
      attrGE).dedup).find? (fun x => x.id == aid) with
  | none =>
      exfalso
      have := List.find?_eq_none.mp hf t htl
      simp [hid] at this
  | some x =>
      have hxl := List.mem_of_find?_eq_some hf
      have hxp := List.find?_some hf
      have hxm := (pipeline_mem attrGE (fun x => x.user == u) reg x).mp hxl
      have hxid : x.id = t.id := by
        have : x.id = aid := by simpa using hxp
        rw [this, hid]
      have hxr : x = t := List.inj_on_of_nodup_map hnd hxm.1 ht hxid
      subst hxr
      simp [getObjectAttr, attrQueryset_none, hf]

/-! ### Operation equations and inversions -/

lemma updateRecipe_eq (db : Db) (u rid : Nat) (p : UpdatePayload) (r : Recipe)
    (tags' : List Attr) (nextT' : Nat) (tids : List Nat)
    (ings' : List Attr) (nextI' : Nat) (iids : List Nat)
    (hobj : getObjectRecipe db u rid = .ok r)
    (htags : tagsStep db u r p.tags = .ok (tags', nextT', tids))
    (hings : ingsStep db u r p.ingredients = .ok (ings', nextI', iids)) :
    updateRecipe db u rid p = .ok { db with
      tags := tags', nextTagId := nextT',
      ingredients := ings', nextIngredientId := nextI',
      recipes := db.recipes.map (fun x => if x.id == rid then
        { r with
          title := p.title.getD r.title,
          timeMinutes := p.timeMinutes.getD r.timeMinutes,
          price := p.price.getD r.price,
          description := p.description.getD r.description,
          link := p.link.getD r.link,
          tags := tids, ingredients := iids } else x) } := by
  simp [updateRecipe, hobj, htags, hings]

lemma createRecipe_eq (db : Db) (u : Nat) (p : CreatePayload)
    (tags' : List Attr) (nextT' : Nat) (tids : List Nat)
    (ings' : List Attr) (nextI' : Nat) (iids : List Nat)
    (htags : getOrCreateLoop u (p.tags.getD []) db.tags db.nextTagId [] =
      .ok (tags', nextT', tids))
    (hings : getOrCreateLoop u (p.ingredients.getD [])
      db.ingredients db.nextIngredientId [] = .ok (ings', nextI', iids)) :
    createRecipe db u p = .ok ({ db with
      tags := tags', nextTagId := nextT',
      ingredients := ings', nextIngredientId := nextI',
      recipes := db.recipes ++
        [{ id := db.nextRecipeId, user := u, title := p.title,
           timeMinutes := p.timeMinutes, price := p.price,
           description := p.description.getD "", link := p.link.getD "",
           image := none, tags := tids, ingredients := iids : Recipe }],
      nextRecipeId := db.nextRecipeId + 1 }, db.nextRecipeId) := by
  simp [createRecipe, htags, hings]

lemma getObjectRecipe_ok_inv (db : Db) (u rid : Nat) (r : Recipe)
    (h : getObjectRecipe db u rid = .ok r) :
    r ∈ db.recipes ∧ r.user = u ∧ r.id = rid := by
  simp only [getObjectRecipe, recipeQueryset_none] at h
  cases hf : (((db.recipes.filter (fun x => x.user == u)).insertionSort
      recipeGE).dedup).find? (fun x => x.id == rid) with
  | none => rw [hf] at h; simp at h
  | some x =>
      rw [hf] at h
      simp only [Except.ok.injEq] at h
      subst h
      have hxl := List.mem_of_find?_eq_some hf
      have hxp := List.find?_some hf
      have hxm := (pipeline_mem recipeGE (fun x => x.user == u)
        db.recipes x).mp hxl
      exact ⟨hxm.1, by simpa using hxm.2, by simpa using hxp⟩

lemma getObjectAttr_ok_inv (reg : List Attr) (recipes : List Recipe)
    (assoc : Recipe → List Nat) (u aid : Nat) (t : Attr)
    (h : getObjectAttr reg recipes assoc u aid = .ok t) :
    t ∈ reg ∧ t.user = u ∧ t.id = aid := by
  simp only [getObjectAttr, attrQueryset_none] at h
  cases hf : (((reg.filter (fun x => x.user == u)).insertionSort
      attrGE).dedup).find? (fun x => x.id == aid) with
  | none => rw [hf] at h; simp at h
  | some x =>
      rw [hf] at h
      simp only [Except.ok.injEq] at h
      subst h
      have hxl := List.mem_of_find?_eq_some hf
      have hxp := List.find?_some hf
      have hxm := (pipeline_mem attrGE (fun x => x.user == u) reg x).mp hxl
      exact ⟨hxm.1, by simpa using hxm.2, by simpa using hxp⟩

/-! ### Query-parameter stages -/

/-- The parsed form of a `tags`/`ingredients` query parameter: `none` when the
parameter is absent or empty, otherwise the id list. -/
def paramIds (p : Option String) : Except ApiError (Option (List Int)) :=
  match p with
  | none => .ok none
  | some s => if s = "" then .ok none else (paramsToInt s).map some

/-- The pure filter a parsed `tags` parameter denotes. -/
def applyTagFilter (o : Option (List Int)) (l : List Recipe) : List Recipe :=
  match o with
  | none => l
  | some ids => tagJoin l ids

/-- The pure filter a parsed `ingredients` parameter denotes. -/
def applyIngFilter (o : Option (List Int)) (l : List Recipe) : List Recipe :=
  match o with
  | none => l
  | some ids => ingJoin l ids

lemma tagParamStage_eq (l : List Recipe) (tp : Option String)
    (otids : Option (List Int)) (ht : paramIds tp = .ok otids) :
    tagParamStage l tp = .ok (applyTagFilter otids l) := by
  cases tp with
  | none =>
      simp only [paramIds, Except.ok.injEq] at ht
      subst ht
      rfl
  | some s =>
      by_cases he : s = ""
      · simp only [paramIds, he, if_true, Except.ok.injEq] at ht
        subst ht
        simp [tagParamStage, he, applyTagFilter]
      · simp [paramIds, he] at ht
        cases hp : paramsToInt s with
        | error e => rw [hp] at ht; simp [Except.map] at ht
        | ok ids =>
            rw [hp] at ht
            simp only [Except.map, Except.ok.injEq] at ht
            subst ht
            simp [tagParamStage, he, hp, applyTagFilter, Except.map]

lemma ingParamStage_eq (l : List Recipe) (ip : Option String)
    (oiids : Option (List Int)) (hi : paramIds ip = .ok oiids) :
    ingParamStage l ip = .ok (applyIngFilter oiids l) := by
  cases ip with
  | none =>
      simp only [paramIds, Except.ok.injEq] at hi
      subst hi
      rfl
  | some s =>
      by_cases he : s = ""
      · simp only [paramIds, he, if_true, Except.ok.injEq] at hi
        subst hi
        simp [ingParamStage, he, applyIngFilter]
      · simp [paramIds, he] at hi
        cases hp : paramsToInt s with
        | error e => rw [hp] at hi; simp [Except.map] at hi
        | ok ids =>
            rw [hp] at hi
            simp only [Except.map, Except.ok.injEq] at hi
            subst hi
            simp [ingParamStage, he, hp, applyIngFilter, Except.map]

lemma applyTagFilter_mem (o : Option (List Int)) (l : List Recipe)
    (x : Recipe) :
    x ∈ applyTagFilter o l ↔ x ∈ l ∧
      (∀ ids, o = some ids → ∃ tid : Nat, tid ∈ x.tags ∧ (tid : Int) ∈ ids) := by
  cases o with
  | none => simp [applyTagFilter]
  | some ids =>
      rw [applyTagFilter, tagJoin_mem]
      constructor
      · rintro ⟨hx, hex⟩
        exact ⟨hx, fun ids2 h2 => by cases h2; exact hex⟩
      · rintro ⟨hx, hall⟩
        exact ⟨hx, hall ids rfl⟩

lemma applyIngFilter_mem (o : Option (List Int)) (l : List Recipe)
    (x : Recipe) :
    x ∈ applyIngFilter o l ↔ x ∈ l ∧
      (∀ ids, o = some ids →
        ∃ iid : Nat, iid ∈ x.ingredients ∧ (iid : Int) ∈ ids) := by
  cases o with
  | none => simp [applyIngFilter]
  | some ids =>
      rw [applyIngFilter, ingJoin_mem]
      constructor
      · rintro ⟨hx, hex⟩
        exact ⟨hx, fun ids2 h2 => by cases h2; exact hex⟩
      · rintro ⟨hx, hall⟩
        exact ⟨hx, hall ids rfl⟩

lemma tagParamStage_subset (l : List Recipe) (tp : Option String)
    (q : List Recipe) (h : tagParamStage l tp = .ok q) : ∀ r ∈ q, r ∈ l := by
  cases tp with
  | none =>
      simp only [tagParamStage, Except.ok.injEq] at h
      subst h
      exact fun r hr => hr
  | some s =>
      by_cases he : s = ""
      · simp only [tagParamStage, he, if_true, Except.ok.injEq] at h
        subst h
        exact fun r hr => hr
      · simp [tagParamStage, he] at h
        cases hp : paramsToInt s with
        | error e => rw [hp] at h; simp [Except.map] at h
        | ok ids =>
            rw [hp] at h
            simp only [Except.map, Except.ok.injEq] at h
            subst h
            exact fun r hr => copyJoin_subset _ l r hr

lemma ingParamStage_subset (l : List Recipe) (ip : Option String)
    (q : List Recipe) (h : ingParamStage l ip = .ok q) : ∀ r ∈ q, r ∈ l := by
  cases ip with
  | none =>
      simp only [ingParamStage, Except.ok.injEq] at h
      subst h
      exact fun r hr => hr
  | some s =>
      by_cases he : s = ""
      · simp only [ingParamStage, he, if_true, Except.ok.injEq] at h
        subst h
        exact fun r hr => hr
      · simp [ingParamStage, he] at h
        cases hp : paramsToInt s with
        | error e => rw [hp] at h; simp [Except.map] at h
        | ok ids =>
            rw [hp] at h
            simp only [Except.map, Except.ok.injEq] at h
            subst h
            exact fun r hr => copyJoin_subset _ l r hr

lemma tagParamStage_filter (p : Recipe → Bool) (l : List Recipe)
    (tp : Option String) :
    tagParamStage (l.filter p) tp =
      (tagParamStage l tp).map (fun q => q.filter p) := by
  cases tp with
  | none => rfl
  | some s =>
      by_cases he : s = ""
      · simp [tagParamStage, he, Except.map]
      · cases hp : paramsToInt s with
        | error e => simp [tagParamStage, he, hp, Except.map]
        | ok ids =>
            simp only [tagParamStage, hp, Except.map, if_neg he]
            rw [tagJoin, tagJoin, ← filter_copyJoin]

lemma ingParamStage_filter (p : Recipe → Bool) (l : List Recipe)
    (ip : Option String) :
    ingParamStage (l.filter p) ip =
      (ingParamStage l ip).map (fun q => q.filter p) := by
  cases ip with
  | none => rfl
  | some s =>
      by_cases he : s = ""
      · simp [ingParamStage, he, Except.map]
      · cases hp : paramsToInt s with
        | error e => simp [ingParamStage, he, hp, Except.map]
        | ok ids =>
            simp only [ingParamStage, hp, Except.map, if_neg he]
            rw [ingJoin, ingJoin, ← filter_copyJoin]

/-! ### Composite operation specifications -/

lemma assocStep_spec (reg : List Attr) (next : Nat) (defIds : List Nat)
    (u : Nat) (pt : Option (List String)) (hU : keyUniq reg) :
    ∃ reg' next' out new,
      assocStep reg next defIds u pt = .ok (reg', next', out) ∧
      reg' = reg ++ new ∧
      (∀ t ∈ new, t.user = u ∧ t.name ∈ pt.getD [] ∧ next ≤ t.id) ∧
      keyUniq reg' ∧
      (pt = none → out = defIds ∧ new = []) ∧
      (∀ names, pt = some names →
        (∀ tid, tid ∈ out ↔
          ∃ t ∈ reg', t.id = tid ∧ t.user = u ∧ t.name ∈ names) ∧
        (∀ n ∈ names, ∃ t ∈ reg', t.user = u ∧ t.name = n ∧ t.id ∈ out)) ∧
      (idsFresh reg next → idsFresh reg' next') ∧
      (idsFresh reg next → (reg.map Attr.id).Nodup →
        (reg'.map Attr.id).Nodup) := by
  cases pt with
  | none =>
      exact ⟨reg, next, defIds, [], rfl, by simp, by simp, hU,
        fun _ => ⟨rfl, rfl⟩, fun _ h => Option.noConfusion h, fun h => h,
        fun _ h => h⟩
  | some names =>
      obtain ⟨reg', next', out, new, hloop, heq, hnew, _, hU2, hiff, hex,
        hfr, hnd⟩ := getOrCreateLoop_spec u names reg next [] hU
      refine ⟨reg', next', out, new, hloop, heq, ?_, hU2,
        fun h => Option.noConfusion h, ?_, hfr, hnd⟩
      · intro t ht
        obtain ⟨h1, h2, h3, _⟩ := hnew t ht
        exact ⟨h1, by simpa using h2, h3⟩
      · intro names2 h2
        have hn2 : names2 = names := by
          injection h2 with h3
          exact h3.symm
        subst hn2
        constructor
        · intro tid
          rw [hiff tid]
          simp
        · exact hex

lemma updateRecipe_spec (db : Db) (u rid : Nat) (p : UpdatePayload)
    (r : Recipe)
    (hU1 : keyUniq db.tags) (hU2 : keyUniq db.ingredients)
    (hnd : (db.recipes.map Recipe.id).Nodup)
    (hr : r ∈ db.recipes) (hu : r.user = u) (hid : r.id = rid) :
    ∃ db' r' tNew iNew,
      updateRecipe db u rid p = .ok db' ∧
      db'.recipes = db.recipes.map (fun x => if x.id == rid then r' else x) ∧
      r'.id = rid ∧ r'.user = r.user ∧
      db'.tags = db.tags ++ tNew ∧ db'.ingredients = db.ingredients ++ iNew ∧
      (∀ t ∈ tNew, t.user = u ∧ t.name ∈ p.tags.getD [] ∧
        db.nextTagId ≤ t.id) ∧
      (∀ t ∈ iNew, t.user = u ∧ t.name ∈ p.ingredients.getD [] ∧
        db.nextIngredientId ≤ t.id) ∧
      keyUniq db'.tags ∧ keyUniq db'.ingredients ∧
      (p.tags = none → r'.tags = r.tags ∧ tNew = []) ∧
      (∀ names, p.tags = some names →
        (∀ tid, tid ∈ r'.tags ↔
          ∃ t ∈ db'.tags, t.id = tid ∧ t.user = u ∧ t.name ∈ names) ∧
        (∀ n ∈ names, ∃ t ∈ db'.tags, t.user = u ∧ t.name = n ∧
          t.id ∈ r'.tags)) ∧
      (p.ingredients = none → r'.ingredients = r.ingredients ∧ iNew = []) ∧
      (∀ names, p.ingredients = some names →
        (∀ iid, iid ∈ r'.ingredients ↔
          ∃ t ∈ db'.ingredients, t.id = iid ∧ t.user = u ∧
            t.name ∈ names) ∧
        (∀ n ∈ names, ∃ t ∈ db'.ingredients, t.user = u ∧ t.name = n ∧
          t.id ∈ r'.ingredients)) ∧
      (idsFresh db.tags db.nextTagId → (db.tags.map Attr.id).Nodup →
        (db'.tags.map Attr.id).Nodup) ∧
      (idsFresh db.ingredients db.nextIngredientId →
        (db.ingredients.map Attr.id).Nodup →
        (db'.ingredients.map Attr.id).Nodup) := by
  have hobj : getObjectRecipe db u rid = .ok r :=
    getObjectRecipe_found db u rid r hnd hr hu hid
  obtain ⟨tags', nextT', tids, tNew, hTs, hTeq, hTnew, hTU, hTnone, hTsome,
    _, hTnd⟩ := assocStep_spec db.tags db.nextTagId r.tags u p.tags hU1
  obtain ⟨ings', nextI', iids, iNew, hIs, hIeq, hInew, hIU, hInone, hIsome,
    _, hInd⟩ := assocStep_spec db.ingredients db.nextIngredientId
      r.ingredients u p.ingredients hU2
  refine ⟨_, _, tNew, iNew,
    updateRecipe_eq db u rid p r tags' nextT' tids ings' nextI' iids hobj
      hTs hIs, rfl, hid, rfl, hTeq, hIeq, hTnew, hInew, hTeq ▸ hTU,
    hIeq ▸ hIU, ?_, ?_, ?_, ?_, hTnd, hInd⟩
  · intro h
    obtain ⟨ho, hn⟩ := hTnone h
    exact ⟨ho, hn⟩
  · intro names h
    exact hTsome names h
  · intro h
    obtain ⟨ho, hn⟩ := hInone h
    exact ⟨ho, hn⟩
  · intro names h
    exact hIsome names h

lemma createRecipe_spec (db : Db) (u : Nat) (p : CreatePayload)
    (hU1 : keyUniq db.tags) (hU2 : keyUniq db.ingredients) :
    ∃ db' r tNew iNew,
      createRecipe db u p = .ok (db', db.nextRecipeId) ∧
      db'.recipes = db.recipes ++ [r] ∧
      r.id = db.nextRecipeId ∧ r.user = u ∧
      r.title = p.title ∧ r.timeMinutes = p.timeMinutes ∧ r.price = p.price ∧
      db'.tags = db.tags ++ tNew ∧
      db'.ingredients = db.ingredients ++ iNew ∧
      (∀ t ∈ tNew, t.user = u ∧ t.name ∈ p.tags.getD [] ∧
        db.nextTagId ≤ t.id) ∧
      (∀ t ∈ iNew, t.user = u ∧ t.name ∈ p.ingredients.getD [] ∧
        db.nextIngredientId ≤ t.id) ∧
      keyUniq db'.tags ∧ keyUniq db'.ingredients ∧
      (∀ tid, tid ∈ r.tags ↔
        ∃ t ∈ db'.tags, t.id = tid ∧ t.user = u ∧
          t.name ∈ p.tags.getD []) ∧
      (∀ n ∈ p.tags.getD [], ∃ t ∈ db'.tags, t.user = u ∧ t.name = n ∧
        t.id ∈ r.tags) ∧
      (∀ iid, iid ∈ r.ingredients ↔
        ∃ t ∈ db'.ingredients, t.id = iid ∧ t.user = u ∧
          t.name ∈ p.ingredients.getD []) ∧
      (∀ n ∈ p.ingredients.getD [], ∃ t ∈ db'.ingredients, t.user = u ∧
        t.name = n ∧ t.id ∈ r.ingredients) ∧
      (idsFresh db.tags db.nextTagId → (db.tags.map Attr.id).Nodup →
        (db'.tags.map Attr.id).Nodup) ∧
      (idsFresh db.ingredients db.nextIngredientId →
        (db.ingredients.map Attr.id).Nodup →
        (db'.ingredients.map Attr.id).Nodup) := by
  obtain ⟨tags', nextT', tids, tNew, hTloop, hTeq, hTnew, _, hTU, hTiff,
    hTex, _, hTnd⟩ :=
    getOrCreateLoop_spec u (p.tags.getD []) db.tags db.nextTagId [] hU1
  obtain ⟨ings', nextI', iids, iNew, hIloop, hIeq, hInew, _, hIU, hIiff,
    hIex, _, hInd⟩ :=
    getOrCreateLoop_spec u (p.ingredients.getD []) db.ingredients
      db.nextIngredientId [] hU2
  refine ⟨_, _, tNew, iNew,
    createRecipe_eq db u p tags' nextT' tids ings' nextI' iids hTloop hIloop,
    rfl, rfl, rfl, rfl, rfl, rfl, hTeq, hIeq, ?_, ?_, hTeq ▸ hTU,
    hIeq ▸ hIU, ?_, hTex, ?_, hIex, hTnd, hInd⟩
  · intro t ht
    obtain ⟨h1, h2, h3, _⟩ := hTnew t ht
    exact ⟨h1, h2, h3⟩
  · intro t ht
    obtain ⟨h1, h2, h3, _⟩ := hInew t ht
    exact ⟨h1, h2, h3⟩
  · intro tid
    rw [hTiff tid]
    simp
  · intro iid
    rw [hIiff iid]
    simp

/-! ### Concrete states for witnesses -/

/-- A small store with one row of each kind for users 1 and 2. -/
def exDb : Db :=
  { tags := [⟨1, 1, "Cookies"⟩, ⟨2, 2, "Fruity"⟩],
    ingredients := [⟨1, 1, "Lime"⟩, ⟨2, 2, "Salt"⟩],
    recipes :=
      [⟨1, 1, "Sample recipe", 22, 525, "Sample", "lnk", none, [1], [1]⟩,
       ⟨2, 2, "Other recipe", 10, 450, "", "", none, [2], [2]⟩],
    nextTagId := 3, nextIngredientId := 3, nextRecipeId := 3 }

/-- User 1's recipe row of `exDb`. -/
def exRecipe1 : Recipe :=
  ⟨1, 1, "Sample recipe", 22, 525, "Sample", "lnk", none, [1], [1]⟩

/-- A create payload reusing the existing tag "Cookies" and naming a new tag
"Snacks"; the `user` key carries a foreign id that must be ignored. -/
def exCreate : CreatePayload :=
  { title := "Brownies", timeMinutes := 50, price := 230,
    description := none, link := none, user := some 99,
    tags := some ["Cookies", "Snacks"], ingredients := some ["Lime"] }

/-- A partial update that reassigns the tags and smuggles a `user` key. -/
def exPatch : UpdatePayload :=
  { title := some "New Title", timeMinutes := none, price := none,
    description := none, link := none, user := some 2,
    tags := some ["Lunch"], ingredients := none }

/-- A partial update clearing the tag list. -/
def exClear : UpdatePayload :=
  { title := none, timeMinutes := none, price := none,
    description := none, link := none, user := none,
    tags := some [], ingredients := none }

/-! ### C1 -/

/-- What recipe creation guarantees about the two attribute registries. -/
def createSyncPost (db : Db) (u : Nat) (p : CreatePayload) : Prop :=
  ∃ db' r tNew iNew,
    createRecipe db u p = .ok (db', db.nextRecipeId) ∧
    db'.recipes = db.recipes ++ [r] ∧
    db'.tags = db.tags ++ tNew ∧
    db'.ingredients = db.ingredients ++ iNew ∧
    keyUniq db'.tags ∧ keyUniq db'.ingredients ∧
    (∀ t ∈ tNew, t.user = u ∧ t.name ∈ p.tags.getD [] ∧
      ∀ t0 ∈ db.tags, ¬(t0.user = u ∧ t0.name = t.name)) ∧
    (∀ n ∈ p.tags.getD [], ∃ t ∈ db'.tags,
      t.user = u ∧ t.name = n ∧ t.id ∈ r.tags) ∧
    (∀ t ∈ db.tags, t.user = u → t.name ∈ p.tags.getD [] → t.id ∈ r.tags) ∧
    (∀ t ∈ iNew, t.user = u ∧ t.name ∈ p.ingredients.getD [] ∧
      ∀ t0 ∈ db.ingredients, ¬(t0.user = u ∧ t0.name = t.name)) ∧
    (∀ n ∈ p.ingredients.getD [], ∃ t ∈ db'.ingredients,
      t.user = u ∧ t.name = n ∧ t.id ∈ r.ingredients) ∧
    (∀ t ∈ db.ingredients, t.user = u → t.name ∈ p.ingredients.getD [] →
      t.id ∈ r.ingredients)

/-- C1: for every recipe create, each tag name is looked up by
(user, name) and reused when present; an absent name is created exactly once
(new rows carry only names from the payload whose key was absent, and key
uniqueness is preserved, so no duplicate (user, name) row is ever created);
every named row is associated with the new recipe. The same procedure runs
independently for ingredient names against the ingredient registry. -/
theorem create_get_or_create_sync (db : Db) (u : Nat) (p : CreatePayload)
    (hU1 : keyUniq db.tags) (hU2 : keyUniq db.ingredients) :
    createSyncPost db u p := by
  obtain ⟨db', r, tNew, iNew, hok, hrec, _, _, _, _, _, hTeq, hIeq, hTnew,
    hInew, hTU, hIU, hTiff, hTex, hIiff, hIex, _, _⟩ :=
    createRecipe_spec db u p hU1 hU2
  have hTcross : ∀ a ∈ db.tags, ∀ b ∈ tNew,
      a.user ≠ b.user ∨ a.name ≠ b.name :=
    (List.pairwise_append.mp (hTeq ▸ hTU)).2.2
  have hIcross : ∀ a ∈ db.ingredients, ∀ b ∈ iNew,
      a.user ≠ b.user ∨ a.name ≠ b.name :=
    (List.pairwise_append.mp (hIeq ▸ hIU)).2.2
  refine ⟨db', r, tNew, iNew, hok, hrec, hTeq, hIeq, hTU, hIU, ?_, hTex,
    ?_, ?_, hIex, ?_⟩
  · intro t ht
    obtain ⟨h1, h2, _⟩ := hTnew t ht
    refine ⟨h1, h2, ?_⟩
    rintro t0 ht0 ⟨hk1, hk2⟩
    rcases hTcross t0 ht0 t ht with hne | hne
    · exact hne (hk1.trans h1.symm)
    · exact hne hk2
  · intro t ht htu htn
    exact (hTiff t.id).mpr ⟨t, hTeq ▸ List.mem_append_left _ ht, rfl, htu, htn⟩
  · intro t ht
    obtain ⟨h1, h2, _⟩ := hInew t ht
    refine ⟨h1, h2, ?_⟩
    rintro t0 ht0 ⟨hk1, hk2⟩
    rcases hIcross t0 ht0 t ht with hne | hne
    · exact hne (hk1.trans h1.symm)
    · exact hne hk2
  · intro t ht htu htn
    exact (hIiff t.id).mpr ⟨t, hIeq ▸ List.mem_append_left _ ht, rfl, htu, htn⟩

/-- Witness for C1 at a concrete store: "Cookies" exists for user 1,
"Snacks" does not. -/
theorem create_get_or_create_sync_witness : createSyncPost exDb 1 exCreate :=
  create_get_or_create_sync exDb 1 exCreate (by decide) (by decide)

/-! ### C2 -/

/-- What a recipe update guarantees about the nested name lists. -/
def updateSyncPost (db : Db) (u rid : Nat) (p : UpdatePayload)
    (r : Recipe) : Prop :=
  ∃ db' r',
    updateRecipe db u rid p = .ok db' ∧
    db'.recipes = db.recipes.map (fun x => if x.id == rid then r' else x) ∧
    (p.tags = none → r'.tags = r.tags) ∧
    (∀ names, p.tags = some names →
      (∀ tid, tid ∈ r'.tags ↔
        ∃ t ∈ db'.tags, t.id = tid ∧ t.user = u ∧ t.name ∈ names) ∧
      (∀ n ∈ names, ∃ t ∈ db'.tags, t.user = u ∧ t.name = n ∧
        t.id ∈ r'.tags)) ∧
    (p.ingredients = none → r'.ingredients = r.ingredients) ∧
    (∀ names, p.ingredients = some names →
      (∀ iid, iid ∈ r'.ingredients ↔
        ∃ t ∈ db'.ingredients, t.id = iid ∧ t.user = u ∧ t.name ∈ names) ∧
      (∀ n ∈ names, ∃ t ∈ db'.ingredients, t.user = u ∧ t.name = n ∧
        t.id ∈ r'.ingredients))

/-- C2: on update, a provided `tags` list (empty included) clears the
existing associations and re-runs get-or-create, so afterwards the recipe's
tag set is exactly the ids of rows keyed (user, one of the provided names);
an absent `tags` key leaves the associations unchanged. The same holds
independently for `ingredients`. -/
theorem update_tags_exactly_payload (db : Db) (u rid : Nat)
    (p : UpdatePayload) (r : Recipe)
    (hU1 : keyUniq db.tags) (hU2 : keyUniq db.ingredients)
    (hnd : (db.recipes.map Recipe.id).Nodup)
    (hr : r ∈ db.recipes) (hu : r.user = u) (hid : r.id = rid) :
    updateSyncPost db u rid p r := by
  obtain ⟨db', r', tNew, iNew, hok, hrec, _, _, _, _, _, _, _, _, hTnone,
    hTsome, hInone, hIsome, _, _⟩ :=
    updateRecipe_spec db u rid p r hU1 hU2 hnd hr hu hid
  exact ⟨db', r', hok, hrec, fun h => (hTnone h).1, hTsome,
    fun h => (hInone h).1, hIsome⟩

/-- Witness for C2: patching user 1's recipe with tags ["Lunch"]. -/
theorem update_tags_exactly_payload_witness :
    updateSyncPost exDb 1 1 exPatch exRecipe1 :=
  update_tags_exactly_payload exDb 1 1 exPatch exRecipe1 (by decide)
    (by decide) (by decide) (by decide) (by decide) (by decide)

/-! ### C7 -/

/-- Owner immutability of a recipe update. -/
def ownerImmutablePost (db : Db) (u rid : Nat) (p : UpdatePayload)
    (r : Recipe) : Prop :=
  ∃ db' r',
    updateRecipe db u rid p = .ok db' ∧
    db'.recipes = db.recipes.map (fun x => if x.id == rid then r' else x) ∧
    r'.user = r.user

/-- C7: for every recipe update (partial or full, any payload — in
particular one carrying a different `user` id, which the serializer's field
set never reads): the update succeeds without error and the stored owner
equals the owner before the operation. -/
theorem update_owner_immutable (db : Db) (u rid : Nat) (p : UpdatePayload)
    (r : Recipe)
    (hU1 : keyUniq db.tags) (hU2 : keyUniq db.ingredients)
    (hnd : (db.recipes.map Recipe.id).Nodup)
    (hr : r ∈ db.recipes) (hu : r.user = u) (hid : r.id = rid) :
    ownerImmutablePost db u rid p r := by
  obtain ⟨db', r', _, _, hok, hrec, _, hruser, _⟩ :=
    updateRecipe_spec db u rid p r hU1 hU2 hnd hr hu hid
  exact ⟨db', r', hok, hrec, hruser⟩

/-- Witness for C7: the payload carries `user := some 2` yet user 1's
recipe keeps owner 1. -/
theorem update_owner_immutable_witness :
    ownerImmutablePost exDb 1 1 exPatch exRecipe1 :=
  update_owner_immutable exDb 1 1 exPatch exRecipe1 (by decide) (by decide)
    (by decide) (by decide) (by decide) (by decide)

/-! ### C8 -/

/-- Clearing semantics of `tags = []`. -/
def clearTagsPost (db : Db) (u rid : Nat) (p : UpdatePayload) : Prop :=
  ∃ db' r',
    updateRecipe db u rid p = .ok db' ∧
    db'.recipes = db.recipes.map (fun x => if x.id == rid then r' else x) ∧
    r'.tags = [] ∧ db'.tags = db.tags

/-- C8: updating a recipe that has at least one tag with `tags = []`
removes all of its tag associations while the tag registry itself is left
exactly as it was (rows detached, not deleted). -/
theorem update_empty_tags_detaches (db : Db) (u rid : Nat)
    (p : UpdatePayload) (r : Recipe)
    (hU1 : keyUniq db.tags) (hU2 : keyUniq db.ingredients)
    (hnd : (db.recipes.map Recipe.id).Nodup)
    (hr : r ∈ db.recipes) (hu : r.user = u) (hid : r.id = rid)
    (hpt : p.tags = some []) (_hne : r.tags ≠ []) :
    clearTagsPost db u rid p := by
  obtain ⟨db', r', tNew, iNew, hok, hrec, _, _, hTeq, _, hTnew, _, _, _, _,
    hTsome, _, _, _, _⟩ :=
    updateRecipe_spec db u rid p r hU1 hU2 hnd hr hu hid
  have htags : r'.tags = [] := by
    rw [List.eq_nil_iff_forall_not_mem]
    intro tid htid
    obtain ⟨t, _, _, _, hmem⟩ := ((hTsome [] hpt).1 tid).mp htid
    simp at hmem
  have htnew : tNew = [] := by
    rw [List.eq_nil_iff_forall_not_mem]
    intro t ht
    have := (hTnew t ht).2.1
    rw [hpt] at this
    simp at this
  refine ⟨db', r', hok, hrec, htags, ?_⟩
  rw [hTeq, htnew, List.append_nil]

/-- Witness for C8: user 1's recipe has tag 1; clearing leaves the two
tag rows intact. -/
theorem update_empty_tags_detaches_witness : clearTagsPost exDb 1 1 exClear :=
  update_empty_tags_detaches exDb 1 1 exClear exRecipe1 (by decide)
    (by decide) (by decide) (by decide) (by decide) (by decide) (by decide)
    (by decide)

/-! ### C3 -/

lemma pairwise_strict_of (l base : List Recipe)
    (hnd : (base.map Recipe.id).Nodup) (hsub : ∀ r ∈ l, r ∈ base)
    (hlnd : l.Nodup) (hsort : l.Pairwise recipeGE) :
    l.Pairwise (fun a b => b.id < a.id) := by
  have hand : l.Pairwise (fun a b => a ≠ b ∧ recipeGE a b) :=
    List.Pairwise.and hlnd hsort
  refine pairwise_imp_mem ?_ hand
  intro a ha b hb hab
  have hne : a.id ≠ b.id := fun he =>
    hab.1 (List.inj_on_of_nodup_map hnd (hsub a ha) (hsub b hb) he)
  exact lt_of_le_of_ne hab.2 (Ne.symm hne)

/-- The contents, uniqueness and order of a recipe list response. -/
def listRecipesPost (db : Db) (u : Nat) (tagsP ingsP : Option String)
    (otids oiids : Option (List Int)) : Prop :=
  ∃ l, listRecipes db u tagsP ingsP = .ok l ∧
    (∀ r, r ∈ l ↔ r ∈ db.recipes ∧ r.user = u ∧
      (∀ ids, otids = some ids →
        ∃ tid : Nat, tid ∈ r.tags ∧ (tid : Int) ∈ ids) ∧
      (∀ ids, oiids = some ids →
        ∃ iid : Nat, iid ∈ r.ingredients ∧ (iid : Int) ∈ ids)) ∧
    l.Nodup ∧
    l.Pairwise (fun a b => b.id < a.id)

/-- C3: the recipe list contains exactly the requesting user's recipes
that pass the optional tag-id and ingredient-id filters (at least one
associated id in the given set), each exactly once, in descending id order. -/
theorem list_recipes_filtered_dedup_ordered (db : Db) (u : Nat)
    (tagsP ingsP : Option String) (otids oiids : Option (List Int))
    (ht : paramIds tagsP = .ok otids) (hi : paramIds ingsP = .ok oiids)
    (hnd : (db.recipes.map Recipe.id).Nodup) :
    listRecipesPost db u tagsP ingsP otids oiids := by
  have h1 := tagParamStage_eq db.recipes tagsP otids ht
  have h2 := ingParamStage_eq (applyTagFilter otids db.recipes) ingsP oiids hi
  have hsub : ∀ r ∈ (((applyIngFilter oiids
      (applyTagFilter otids db.recipes)).filter
        (fun r => r.user == u)).insertionSort recipeGE).dedup,
      r ∈ db.recipes := by
    intro r hr
    have hm := (pipeline_mem recipeGE (fun r => r.user == u) _ r).mp hr
    have hm2 := ((applyIngFilter_mem oiids _ r).mp hm.1).1
    exact ((applyTagFilter_mem otids _ r).mp hm2).1
  refine ⟨(((applyIngFilter oiids (applyTagFilter otids
      db.recipes)).filter (fun r => r.user == u)).insertionSort
        recipeGE).dedup, ?_, ?_, pipeline_nodup _ _ _,
    pairwise_strict_of _ db.recipes hnd hsub (pipeline_nodup _ _ _)
      (pipeline_sorted _ _ _)⟩
  · simp [listRecipes, recipeQueryset, h1, h2]
  · intro r
    rw [pipeline_mem, applyIngFilter_mem, applyTagFilter_mem]
    constructor
    · rintro ⟨⟨⟨hm, htc⟩, hic⟩, hb⟩
      exact ⟨hm, by simpa using hb, htc, hic⟩
    · rintro ⟨hm, hu2, htc, hic⟩
      exact ⟨⟨⟨hm, htc⟩, hic⟩, by simpa using hu2⟩

/-- Witness for C3: filtering user 1's recipes by tag ids "1,5". -/
theorem list_recipes_filtered_dedup_ordered_witness :
    listRecipesPost exDb 1 (some "1,5") none (some [1, 5]) none :=
  list_recipes_filtered_dedup_ordered exDb 1 (some "1,5") none
    (some [1, 5]) none (by decide) (by decide) (by decide)

/-! ### C4 -/

/-- The contents, uniqueness and order of an attribute list response. -/
def listAttrsPost (reg : List Attr) (recipes : List Recipe)
    (assoc : Recipe → List Nat) (u : Nat)
    (res : Except ApiError (List Attr)) (b : Bool) : Prop :=
  ∃ l, res = .ok l ∧
    (∀ t, t ∈ l ↔ t ∈ reg ∧ t.user = u ∧
      (b = true → ∃ r ∈ recipes, t.id ∈ assoc r)) ∧
    l.Nodup ∧
    l.Pairwise (fun a c => c.name ≤ a.name)

lemma pairwise_attrGE_name {l : List Attr} (h : l.Pairwise attrGE) :
    l.Pairwise (fun a c => c.name ≤ a.name) := h

lemma attrQueryset_spec (reg : List Attr) (recipes : List Recipe)
    (assoc : Recipe → List Nat) (u : Nat) (ap : Option String) (b : Bool)
    (hA : parseAssignedOnly ap = .ok b) :
    listAttrsPost reg recipes assoc u
      (attrQueryset reg recipes assoc u ap) b := by
  cases b with
  | false =>
      refine ⟨((reg.filter (fun t => t.user == u)).insertionSort
        attrGE).dedup, ?_, ?_, pipeline_nodup _ _ _,
        pairwise_attrGE_name
          (pipeline_sorted attrGE (fun t => t.user == u) reg)⟩
      · simp [attrQueryset, hA]
      · intro t
        rw [pipeline_mem]
        constructor
        · rintro ⟨hm, hb⟩
          exact ⟨hm, by simpa using hb, fun h => nomatch h⟩
        · rintro ⟨hm, hu2, _⟩
          exact ⟨hm, by simpa using hu2⟩
  | true =>
      refine ⟨(((assignedJoin reg recipes assoc).filter
        (fun t => t.user == u)).insertionSort attrGE).dedup, ?_, ?_,
        pipeline_nodup _ _ _,
        pairwise_attrGE_name (pipeline_sorted attrGE (fun t => t.user == u)
          (assignedJoin reg recipes assoc))⟩
      · simp [attrQueryset, hA]
      · intro t
        rw [pipeline_mem, assignedJoin_mem]
        constructor
        · rintro ⟨⟨hm, hex⟩, hb⟩
          exact ⟨hm, by simpa using hb, fun _ => hex⟩
        · rintro ⟨hm, hu2, hex⟩
          exact ⟨⟨hm, hex rfl⟩, by simpa using hu2⟩

/-- C4: a tag or ingredient list contains only the requesting user's rows;
with `assigned_only` set it keeps exactly those associated with at least one
recipe (any recipe); the response has no duplicate entries and is ordered by
descending name. Stated for both attribute kinds. -/
theorem list_attributes_assigned_dedup_ordered (db : Db) (u : Nat)
    (ap : Option String) (b : Bool)
    (hA : parseAssignedOnly ap = .ok b) :
    listAttrsPost db.tags db.recipes Recipe.tags u (listTags db u ap) b ∧
    listAttrsPost db.ingredients db.recipes Recipe.ingredients u
      (listIngredients db u ap) b :=
  ⟨attrQueryset_spec db.tags db.recipes Recipe.tags u ap b hA,
   attrQueryset_spec db.ingredients db.recipes Recipe.ingredients u ap b hA⟩

/-- Witness for C4 with `assigned_only=1` on the concrete store. -/
theorem list_attributes_assigned_dedup_ordered_witness :
    listAttrsPost exDb.tags exDb.recipes Recipe.tags 1
      (listTags exDb 1 (some "1")) true ∧
    listAttrsPost exDb.ingredients exDb.recipes Recipe.ingredients 1
      (listIngredients exDb 1 (some "1")) true :=
  list_attributes_assigned_dedup_ordered exDb 1 (some "1") true (by decide)

/-! ### C9 -/

/-- C9: the upload-image action can return neither 200 nor 400. The
ownership lookup succeeds for the owner's recipe, but
`get_serializer_class` then evaluates `serializers.RecipeImageSerializer`,
a name `recipe/serializers.py` never defines, so the request raises
`AttributeError` for a valid image payload and for an invalid one alike. -/
theorem upload_image_raises_attribute_error :
    uploadImage exDb 1 1 true = .error .attributeError ∧
    uploadImage exDb 1 1 false = .error .attributeError ∧
    getSerializerClass "upload_image" = .error .attributeError :=
  ⟨by decide, by decide, by decide⟩

/-! ### C10 -/

lemma intList?_none : ∀ l : List String,
    (∃ x ∈ l, pyInt? x = none) → intList? l = none := by
  intro l
  induction l with
  | nil => rintro ⟨x, hx, _⟩; cases hx
  | cons s rest ih =>
      rintro ⟨x, hx, hbad⟩
      rcases List.mem_cons.mp hx with rfl | hx'
      · cases hr : intList? rest <;> simp [intList?, hbad, hr]
      · have hrest := ih ⟨x, hx', hbad⟩
        cases hp : pyInt? s <;> simp [intList?, hp, hrest]

lemma paramsToInt_bad (s : String)
    (hbad : ∃ tok ∈ splitCommas s, pyInt? tok = none) :
    paramsToInt s = .error .valueError := by
  simp [paramsToInt, intList?_none _ hbad]

lemma paramsToInt_error (s : String) (e : ApiError)
    (h : paramsToInt s = .error e) : e = .valueError := by
  rw [paramsToInt] at h
  cases hi : intList? (splitCommas s) with
  | none => rw [hi] at h; simpa using h.symm
  | some l => rw [hi] at h; simp at h

/-- A present, non-empty parameter containing a token that is not a valid
Python integer literal. -/
def paramBad (p : Option String) : Prop :=
  ∃ s, p = some s ∧ s ≠ "" ∧ ∃ tok ∈ splitCommas s, pyInt? tok = none

lemma tagParamStage_bad (l : List Recipe) (tp : Option String)
    (h : paramBad tp) : tagParamStage l tp = .error .valueError := by
  obtain ⟨s, rfl, hne, hbad⟩ := h
  simp [tagParamStage, hne, paramsToInt_bad s hbad, Except.map]

lemma ingParamStage_bad (l : List Recipe) (ip : Option String)
    (h : paramBad ip) : ingParamStage l ip = .error .valueError := by
  obtain ⟨s, rfl, hne, hbad⟩ := h
  simp [ingParamStage, hne, paramsToInt_bad s hbad, Except.map]

lemma tagParamStage_error (l : List Recipe) (tp : Option String)
    (e : ApiError) (h : tagParamStage l tp = .error e) : e = .valueError := by
  cases tp with
  | none => simp [tagParamStage] at h
  | some s =>
      by_cases he : s = ""
      · simp [tagParamStage, he] at h
      · simp only [tagParamStage, if_neg he] at h
        cases hp : paramsToInt s with
        | error e2 =>
            rw [hp] at h
            simp only [Except.map, Except.error.injEq] at h
            rw [← h] at *
            exact paramsToInt_error s e2 hp ▸ (by rw [h])
        | ok ids => rw [hp] at h; simp [Except.map] at h

/-- C10 (implicit): query-parameter parsing of the list endpoints is
partial. A `tags` or `ingredients` value that is non-empty and contains a
comma-separated token that is not a valid integer literal makes queryset
construction raise an uncaught `ValueError`; an `assigned_only` value that
is not a valid integer literal does the same for the attribute lists; an
empty-string value of `tags` and likewise of `ingredients` is instead
treated, in its own branch, as if the filter were absent. -/
theorem query_param_value_error :
    (∀ db u tagsP ingsP, paramBad tagsP ∨ paramBad ingsP →
      listRecipes db u tagsP ingsP = .error .valueError) ∧
    (∀ db u ingsP, listRecipes db u (some "") ingsP =
      listRecipes db u none ingsP) ∧
    (∀ db u tagsP, listRecipes db u tagsP (some "") =
      listRecipes db u tagsP none) ∧
    (∀ db u s, pyInt? s = none →
      listTags db u (some s) = .error .valueError ∧
      listIngredients db u (some s) = .error .valueError) := by
  refine ⟨?_, ?_, ?_, ?_⟩
  · intro db u tagsP ingsP hbad
    rcases hbad with h | h
    · have h1 := tagParamStage_bad db.recipes tagsP h
      simp [listRecipes, recipeQueryset, h1]
    · cases h1 : tagParamStage db.recipes tagsP with
      | error e =>
          have he := tagParamStage_error db.recipes tagsP e h1
          subst he
          simp [listRecipes, recipeQueryset, h1]
      | ok q1 =>
          have h2 := ingParamStage_bad q1 ingsP h
          simp [listRecipes, recipeQueryset, h1, h2]
  · intro db u ingsP
    have h0 : tagParamStage db.recipes (some "") =
        tagParamStage db.recipes none := by
      simp [tagParamStage]
    simp [listRecipes, recipeQueryset, h0]
  · intro db u tagsP
    cases h1 : tagParamStage db.recipes tagsP with
    | error e => simp [listRecipes, recipeQueryset, h1]
    | ok q1 =>
        have h0 : ingParamStage q1 (some "") = ingParamStage q1 none := by
          simp [ingParamStage]
        simp [listRecipes, recipeQueryset, h1, h0]
  · intro db u s hbad
    have hpa : parseAssignedOnly (some s) = .error .valueError := by
      simp [parseAssignedOnly, hbad]
    exact ⟨by simp [listTags, attrQueryset, hpa],
      by simp [listIngredients, attrQueryset, hpa]⟩

/-- Witness for C10 at concrete parameters. -/
theorem query_param_value_error_witness :
    listRecipes exDb 1 (some "1,x") none = .error .valueError ∧
    listRecipes exDb 1 none (some "x") = .error .valueError ∧
    listRecipes exDb 1 (some "") none = listRecipes exDb 1 none none ∧
    listRecipes exDb 1 none (some "") = listRecipes exDb 1 none none ∧
    listTags exDb 1 (some "oops") = .error .valueError ∧
    listIngredients exDb 1 (some "") = .error .valueError :=
  ⟨query_param_value_error.1 exDb 1 (some "1,x") none
      (Or.inl ⟨"1,x", rfl, by decide, "x", by decide, by decide⟩),
    query_param_value_error.1 exDb 1 none (some "x")
      (Or.inr ⟨"x", rfl, by decide, "x", by decide, by decide⟩),
    query_param_value_error.2.1 exDb 1 none,
    query_param_value_error.2.2.1 exDb 1 none,
    (query_param_value_error.2.2.2 exDb 1 "oops" (by decide)).1,
    (query_param_value_error.2.2.2 exDb 1 "" (by decide)).2⟩

/-! ### C6 -/

/-- Invariant preservation across the mutating operations, plus the owner of
a created recipe. -/
def invariantPost (db : Db) (u : Nat) : Prop :=
  (∀ p db' rid, createRecipe db u p = .ok (db', rid) →
    Inv db' ∧ ∃ r, db'.recipes = db.recipes ++ [r] ∧ r.id = rid ∧
      r.user = u) ∧
  (∀ rid p db', updateRecipe db u rid p = .ok db' → Inv db') ∧
  (∀ tid n db', updateTag db u tid n = .ok db' → Inv db') ∧
  (∀ iid n db', updateIngredient db u iid n = .ok db' → Inv db')

lemma mem_map_replace {l : List Recipe} {r' x : Recipe} {rid : Nat}
    (hx : x ∈ l.map (fun y => if y.id == rid then r' else y)) :
    x = r' ∨ x ∈ l := by
  rcases List.mem_map.mp hx with ⟨y, hy, hxy⟩
  by_cases h : y.id == rid
  · rw [if_pos h] at hxy
    exact Or.inl hxy.symm
  · rw [if_neg h] at hxy
    exact Or.inr (hxy ▸ hy)

/-- C6: starting from a well-formed state satisfying the ownership
invariant, every operation of the API — recipe create, recipe update with
nested name lists, tag rename, ingredient rename — preserves the invariant
that each attached tag/ingredient has the same owner as its recipe; the
created recipe's owner is the authenticated user regardless of payload
content. -/
theorem ownership_invariant_preserved (db : Db) (u : Nat)
    (hInv : Inv db) (hWf : Wf db)
    (hU1 : keyUniq db.tags) (hU2 : keyUniq db.ingredients)
    (hnd : (db.recipes.map Recipe.id).Nodup) :
    invariantPost db u := by
  obtain ⟨hfrT, hfrI, hndT, hndI, hclose⟩ := hWf
  refine ⟨?_, ?_, ?_, ?_⟩
  · -- createRecipe
    intro p db' rid h
    obtain ⟨db2, r, tNew, iNew, hok, hrec, hrid, hruser, _, _, _, hTeq,
      hIeq, hTnew, hInew, _, _, hTiff, _, hIiff, _, hTnd, hInd⟩ :=
      createRecipe_spec db u p hU1 hU2
    rw [hok] at h
    simp only [Except.ok.injEq, Prod.mk.injEq] at h
    obtain ⟨h1, h2⟩ := h
    subst h1
    subst h2
    have hTnd2 : (db2.tags.map Attr.id).Nodup := hTnd hfrT hndT
    have hInd2 : (db2.ingredients.map Attr.id).Nodup := hInd hfrI hndI
    refine ⟨⟨?_, ?_⟩, r, hrec, hrid, hruser⟩
    · intro r2 hr2 t ht htid
      rw [hrec] at hr2
      rcases List.mem_append.mp hr2 with hr2 | hr2
      · rw [hTeq] at ht
        rcases List.mem_append.mp ht with ht | ht
        · exact hInv.1 r2 hr2 t ht htid
        · exfalso
          have hlt := (hclose r2 hr2).1 t.id htid
          have hge := (hTnew t ht).2.2
          exact absurd (lt_of_le_of_lt hge hlt) (lt_irrefl _)
      · simp only [List.mem_singleton] at hr2
        subst hr2
        obtain ⟨t2, ht2, ht2id, ht2u, _⟩ := (hTiff t.id).mp htid
        have : t = t2 := List.inj_on_of_nodup_map hTnd2
          (hTeq ▸ ht) ht2 ht2id.symm
        rw [this, ht2u, hruser]
    · intro r2 hr2 t ht htid
      rw [hrec] at hr2
      rcases List.mem_append.mp hr2 with hr2 | hr2
      · rw [hIeq] at ht
        rcases List.mem_append.mp ht with ht | ht
        · exact hInv.2 r2 hr2 t ht htid
        · exfalso
          have hlt := (hclose r2 hr2).2 t.id htid
          have hge := (hInew t ht).2.2
          exact absurd (lt_of_le_of_lt hge hlt) (lt_irrefl _)
      · simp only [List.mem_singleton] at hr2
        subst hr2
        obtain ⟨t2, ht2, ht2id, ht2u, _⟩ := (hIiff t.id).mp htid
        have : t = t2 := List.inj_on_of_nodup_map hInd2
          (hIeq ▸ ht) ht2 ht2id.symm
        rw [this, ht2u, hruser]
  · -- updateRecipe
    intro rid p db' h
    cases hobj : getObjectRecipe db u rid with
    | error e => simp only [updateRecipe, hobj] at h; simp at h
    | ok r =>
        obtain ⟨hr, hu, hid⟩ := getObjectRecipe_ok_inv db u rid r hobj
        obtain ⟨db2, r', tNew, iNew, hok, hrec, hrid', hruser, hTeq, hIeq,
          hTnew, hInew, _, _, hTnone, hTsome, hInone, hIsome, hTnd,
          hInd⟩ := updateRecipe_spec db u rid p r hU1 hU2 hnd hr hu hid
        rw [hok] at h
        simp only [Except.ok.injEq] at h
        subst h
        have hTnd2 : (db2.tags.map Attr.id).Nodup := hTnd hfrT hndT
        have hInd2 : (db2.ingredients.map Attr.id).Nodup := hInd hfrI hndI
        have hr'user : r'.user = u := hruser.trans hu
        constructor
        · intro r2 hr2 t ht htid
          rw [hrec] at hr2
          rcases mem_map_replace hr2 with hr2 | hr2
          · subst hr2
            cases hpt : p.tags with
            | none =>
                obtain ⟨hsame, hTnil⟩ := hTnone hpt
                rw [hsame] at htid
                rw [hTeq, hTnil, List.append_nil] at ht
                rw [hr'user, ← hu]
                exact hInv.1 r hr t ht htid
            | some names =>
                obtain ⟨t2, ht2, ht2id, ht2u, _⟩ :=
                  ((hTsome names hpt).1 t.id).mp htid
                have : t = t2 := List.inj_on_of_nodup_map hTnd2 ht ht2
                  ht2id.symm
                rw [this, ht2u, hr'user]
          · rw [hTeq] at ht
            rcases List.mem_append.mp ht with ht | ht
            · exact hInv.1 r2 hr2 t ht htid
            · exfalso
              have hlt := (hclose r2 hr2).1 t.id htid
              have hge := (hTnew t ht).2.2
              exact absurd (lt_of_le_of_lt hge hlt) (lt_irrefl _)
        · intro r2 hr2 t ht htid
          rw [hrec] at hr2
          rcases mem_map_replace hr2 with hr2 | hr2
          · subst hr2
            cases hpt : p.ingredients with
            | none =>
                obtain ⟨hsame, hInil⟩ := hInone hpt
                rw [hsame] at htid
                rw [hIeq, hInil, List.append_nil] at ht
                rw [hr'user, ← hu]
                exact hInv.2 r hr t ht htid
            | some names =>
                obtain ⟨t2, ht2, ht2id, ht2u, _⟩ :=
                  ((hIsome names hpt).1 t.id).mp htid
                have : t = t2 := List.inj_on_of_nodup_map hInd2 ht ht2
                  ht2id.symm
                rw [this, ht2u, hr'user]
          · rw [hIeq] at ht
            rcases List.mem_append.mp ht with ht | ht
            · exact hInv.2 r2 hr2 t ht htid
            · exfalso
              have hlt := (hclose r2 hr2).2 t.id htid
              have hge := (hInew t ht).2.2
              exact absurd (lt_of_le_of_lt hge hlt) (lt_irrefl _)
  · -- updateTag (rename)
    intro tid n db' h
    cases hobj : getObjectAttr db.tags db.recipes Recipe.tags u tid with
    | error e => simp only [updateTag, hobj] at h; simp at h
    | ok t0 =>
        simp only [updateTag, hobj, Except.ok.injEq] at h
        subst h
        constructor
        · intro r2 hr2 t ht htid
          rcases List.mem_map.mp ht with ⟨t1, ht1, hteq⟩
          by_cases hc : t1.id == tid
          · rw [if_pos hc] at hteq
            subst hteq
            exact hInv.1 r2 hr2 t1 ht1 htid
          · rw [if_neg hc] at hteq
            subst hteq
            exact hInv.1 r2 hr2 t1 ht1 htid
        · exact hInv.2
  · -- updateIngredient (rename)
    intro iid n db' h
    cases hobj : getObjectAttr db.ingredients db.recipes
        Recipe.ingredients u iid with
    | error e => simp only [updateIngredient, hobj] at h; simp at h
    | ok t0 =>
        simp only [updateIngredient, hobj, Except.ok.injEq] at h
        subst h
        constructor
        · exact hInv.1
        · intro r2 hr2 t ht htid
          rcases List.mem_map.mp ht with ⟨t1, ht1, hteq⟩
          by_cases hc : t1.id == iid
          · rw [if_pos hc] at hteq
            subst hteq
            exact hInv.2 r2 hr2 t1 ht1 htid
          · rw [if_neg hc] at hteq
            subst hteq
            exact hInv.2 r2 hr2 t1 ht1 htid

/-- Witness for C6 on the concrete two-user store. -/
theorem ownership_invariant_preserved_witness : invariantPost exDb 1 :=
  ownership_invariant_preserved exDb 1 (by decide) (by decide) (by decide)
    (by decide) (by decide)

/-! ### C5 -/

lemma recipeQueryset_ok_mem (db : Db) (u : Nat) (tp ip : Option String)
    (l : List Recipe) (h : recipeQueryset db u tp ip = .ok l) :
    ∀ r ∈ l, r ∈ db.recipes ∧ r.user = u := by
  cases h1 : tagParamStage db.recipes tp with
  | error e => simp only [recipeQueryset, h1] at h; simp at h
  | ok q1 =>
      cases h2 : ingParamStage q1 ip with
      | error e => simp only [recipeQueryset, h1, h2] at h; simp at h
      | ok q2 =>
          simp only [recipeQueryset, h1, h2, Except.ok.injEq] at h
          subst h
          intro r hr
          have hm := (pipeline_mem recipeGE (fun r => r.user == u) q2 r).mp hr
          exact ⟨tagParamStage_subset _ _ _ h1 r
            (ingParamStage_subset _ _ _ h2 r hm.1), by simpa using hm.2⟩

lemma attrQueryset_ok_mem (reg : List Attr) (recipes : List Recipe)
    (assoc : Recipe → List Nat) (u : Nat) (ap : Option String)
    (l : List Attr) (h : attrQueryset reg recipes assoc u ap = .ok l) :
    ∀ t ∈ l, t ∈ reg ∧ t.user = u := by
  cases hA : parseAssignedOnly ap with
  | error e => simp only [attrQueryset, hA] at h; simp at h
  | ok b =>
      simp only [attrQueryset, hA, Except.ok.injEq] at h
      subst h
      intro t ht
      have hm := (pipeline_mem attrGE (fun t => t.user == u) _ t).mp ht
      cases b with
      | false =>
          refine ⟨?_, by simpa using hm.2⟩
          simpa using hm.1
      | true =>
          refine ⟨?_, by simpa using hm.2⟩
          have := hm.1
          simp only [if_pos rfl] at this
          exact ((assignedJoin_mem reg recipes assoc t).mp this).1

lemma filter_user_scrub_recipe (u1 u2 : Nat) (hne : u1 ≠ u2)
    (l : List Recipe) :
    (l.filter (fun r => !(r.user == u1))).filter (fun r => r.user == u2) =
      l.filter (fun r => r.user == u2) := by
  rw [List.filter_filter]
  apply List.filter_congr
  intro r _
  by_cases h : r.user = u2
  · have h1 : r.user ≠ u1 := fun hh => hne (hh ▸ h : u1 = u2)
    simp [h, h1, Ne.symm hne]
  · simp [h]

lemma filter_user_scrub_attr (u1 u2 : Nat) (hne : u1 ≠ u2)
    (l : List Attr) :
    (l.filter (fun t => !(t.user == u1))).filter (fun t => t.user == u2) =
      l.filter (fun t => t.user == u2) := by
  rw [List.filter_filter]
  apply List.filter_congr
  intro t _
  by_cases h : t.user = u2
  · have h1 : t.user ≠ u1 := fun hh => hne (hh ▸ h : u1 = u2)
    simp [h, h1, Ne.symm hne]
  · simp [h]

lemma listRecipes_scrub (db : Db) (u1 u2 : Nat) (hne : u1 ≠ u2)
    (tp ip : Option String) :
    listRecipes (scrubUser db u1) u2 tp ip = listRecipes db u2 tp ip := by
  show recipeQueryset (scrubUser db u1) u2 tp ip =
    recipeQueryset db u2 tp ip
  cases h1 : tagParamStage db.recipes tp with
  | error e =>
      have h1' : tagParamStage
          (db.recipes.filter (fun r => !(r.user == u1))) tp = .error e := by
        rw [tagParamStage_filter, h1]
        rfl
      simp [recipeQueryset, scrubUser, h1, h1']
  | ok q1 =>
      have h1' : tagParamStage
          (db.recipes.filter (fun r => !(r.user == u1))) tp =
          .ok (q1.filter (fun r => !(r.user == u1))) := by
        rw [tagParamStage_filter, h1]
        rfl
      cases h2 : ingParamStage q1 ip with
      | error e =>
          have h2' : ingParamStage
              (q1.filter (fun r => !(r.user == u1))) ip = .error e := by
            rw [ingParamStage_filter, h2]
            rfl
          simp [recipeQueryset, scrubUser, h1, h1', h2, h2']
      | ok q2 =>
          have h2' : ingParamStage
              (q1.filter (fun r => !(r.user == u1))) ip =
              .ok (q2.filter (fun r => !(r.user == u1))) := by
            rw [ingParamStage_filter, h2]
            rfl
          simp only [recipeQueryset, scrubUser, h1, h1', h2, h2']
          rw [filter_user_scrub_recipe u1 u2 hne q2]

lemma attrQueryset_scrub (reg : List Attr) (recipes : List Recipe)
    (assoc : Recipe → List Nat) (u1 u2 : Nat) (hne : u1 ≠ u2)
    (ap : Option String)
    (hassoc : ∀ r ∈ recipes, ∀ t ∈ reg, t.id ∈ assoc r → t.user = r.user) :
    attrQueryset (reg.filter (fun t => !(t.user == u1)))
      (recipes.filter (fun r => !(r.user == u1))) assoc u2 ap =
    attrQueryset reg recipes assoc u2 ap := by
  cases hA : parseAssignedOnly ap with
  | error e => simp [attrQueryset, hA]
  | ok b =>
      simp only [attrQueryset, hA]
      cases b with
      | false =>
          simp only [Bool.false_eq_true, if_false]
          rw [filter_user_scrub_attr u1 u2 hne reg]
      | true =>
          simp only [if_true]
          have hjoin :
              (assignedJoin (reg.filter (fun t => !(t.user == u1)))
                (recipes.filter (fun r => !(r.user == u1))) assoc).filter
                  (fun t => t.user == u2) =
              (assignedJoin reg recipes assoc).filter
                (fun t => t.user == u2) := by
            rw [assignedJoin, assignedJoin, filter_copyJoin, filter_copyJoin,
              filter_user_scrub_attr u1 u2 hne reg]
            apply copyJoin_congr
            intro t ht
            have htm := List.mem_filter.mp ht
            have htu : t.user = u2 := by simpa using htm.2
            rw [List.filter_filter]
            apply List.filter_congr
            intro r hr
            by_cases hm : t.id ∈ assoc r
            · have hru : t.user = r.user := hassoc r hr t htm.1 hm
              have : r.user ≠ u1 := fun hh =>
                hne (hh ▸ (hru.symm.trans htu) : u1 = u2)
              simp [hm, this]
            · simp [hm]
          rw [hjoin]

lemma othersRecipe_notFound (db : Db) (u1 u2 rid : Nat) (hne : u1 ≠ u2)
    (hnd : (db.recipes.map Recipe.id).Nodup)
    (hex : ∃ r ∈ db.recipes, r.id = rid ∧ r.user = u1) :
    getObjectRecipe db u2 rid = .error .notFound := by
  obtain ⟨r, hr, hid, hu⟩ := hex
  apply getObjectRecipe_notFound
  intro r2 hr2 hu2 heq
  have : r2 = r := List.inj_on_of_nodup_map hnd hr2 hr (heq.trans hid.symm)
  rw [this] at hu2
  exact hne (hu.symm.trans hu2)

lemma othersAttr_notFound (reg : List Attr) (recipes : List Recipe)
    (assoc : Recipe → List Nat) (u1 u2 aid : Nat) (hne : u1 ≠ u2)
    (hnd : (reg.map Attr.id).Nodup)
    (hex : ∃ t ∈ reg, t.id = aid ∧ t.user = u1) :
    getObjectAttr reg recipes assoc u2 aid = .error .notFound := by
  obtain ⟨t, ht, hid, hu⟩ := hex
  apply getObjectAttr_notFound
  intro t2 ht2 hu2 heq
  have : t2 = t := List.inj_on_of_nodup_map hnd ht2 ht (heq.trans hid.symm)
  rw [this] at hu2
  exact hne (hu.symm.trans hu2)

/-- Cross-user isolation: what user `u2` can see and do regarding rows owned
by `u1`. -/
def isolationPost (db : Db) (u1 u2 : Nat) : Prop :=
  (∀ tp ip l, listRecipes db u2 tp ip = .ok l → ∀ r ∈ l, r.user ≠ u1) ∧
  (∀ ap l, listTags db u2 ap = .ok l → ∀ t ∈ l, t.user ≠ u1) ∧
  (∀ ap l, listIngredients db u2 ap = .ok l → ∀ t ∈ l, t.user ≠ u1) ∧
  (∀ tp ip, listRecipes (scrubUser db u1) u2 tp ip =
    listRecipes db u2 tp ip) ∧
  (∀ ap, listTags (scrubUser db u1) u2 ap = listTags db u2 ap) ∧
  (∀ ap, listIngredients (scrubUser db u1) u2 ap =
    listIngredients db u2 ap) ∧
  (∀ rid, (∃ r ∈ db.recipes, r.id = rid ∧ r.user = u1) →
    getObjectRecipe db u2 rid = .error .notFound ∧
    (∀ p, updateRecipe db u2 rid p = .error .notFound) ∧
    deleteRecipe db u2 rid = .error .notFound ∧
    (∀ v, uploadImage db u2 rid v = .error .notFound)) ∧
  (∀ tid, (∃ t ∈ db.tags, t.id = tid ∧ t.user = u1) →
    (∀ n, updateTag db u2 tid n = .error .notFound) ∧
    deleteTag db u2 tid = .error .notFound) ∧
  (∀ iid, (∃ t ∈ db.ingredients, t.id = iid ∧ t.user = u1) →
    (∀ n, updateIngredient db u2 iid n = .error .notFound) ∧
    deleteIngredient db u2 iid = .error .notFound)

/-- C5: for distinct users u1 and u2 on an invariant-respecting store with
table-unique ids: no row owned by u1 ever appears in u2's list responses;
u2's responses are unchanged when every row of u1 is removed from the store
(noninterference); and every detail read, update, or delete u2 attempts on a
row owned by u1 answers not-found — never forbidden, since the ownership
filter runs before the object is resolved. -/
theorem cross_user_isolation (db : Db) (u1 u2 : Nat) (hne : u1 ≠ u2)
    (hInv : Inv db)
    (hndR : (db.recipes.map Recipe.id).Nodup)
    (hndT : (db.tags.map Attr.id).Nodup)
    (hndI : (db.ingredients.map Attr.id).Nodup) :
    isolationPost db u1 u2 := by
  refine ⟨?_, ?_, ?_, ?_, ?_, ?_, ?_, ?_, ?_⟩
  · intro tp ip l h r hr
    have := (recipeQueryset_ok_mem db u2 tp ip l h r hr).2
    rw [this]
    exact Ne.symm hne
  · intro ap l h t ht
    have := (attrQueryset_ok_mem db.tags db.recipes Recipe.tags u2 ap l
      h t ht).2
    rw [this]
    exact Ne.symm hne
  · intro ap l h t ht
    have := (attrQueryset_ok_mem db.ingredients db.recipes
      Recipe.ingredients u2 ap l h t ht).2
    rw [this]
    exact Ne.symm hne
  · intro tp ip
    exact listRecipes_scrub db u1 u2 hne tp ip
  · intro ap
    exact attrQueryset_scrub db.tags db.recipes Recipe.tags u1 u2 hne ap
      hInv.1
  · intro ap
    exact attrQueryset_scrub db.ingredients db.recipes Recipe.ingredients
      u1 u2 hne ap hInv.2
  · intro rid hex
    have h404 := othersRecipe_notFound db u1 u2 rid hne hndR hex
    exact ⟨h404, fun p => by simp [updateRecipe, h404],
      by simp [deleteRecipe, h404], fun v => by simp [uploadImage, h404]⟩
  · intro tid hex
    have h404 := othersAttr_notFound db.tags db.recipes Recipe.tags u1 u2
      tid hne hndT hex
    exact ⟨fun n => by simp [updateTag, h404], by simp [deleteTag, h404]⟩
  · intro iid hex
    have h404 := othersAttr_notFound db.ingredients db.recipes
      Recipe.ingredients u1 u2 iid hne hndI hex
    exact ⟨fun n => by simp [updateIngredient, h404],
      by simp [deleteIngredient, h404]⟩

/-- Witness for C5: user 2 owns rows with id 2; user 1 cannot see or touch
them on the concrete store. -/
theorem cross_user_isolation_witness : isolationPost exDb 2 1 :=
  cross_user_isolation exDb 2 1 (by decide) (by decide) (by decide)
    (by decide) (by decide)

end RecipeApp
